import Mathlib

/-!
# Verification of the devhosts transactional apply engine

This file is a shallow embedding of the devhosts repository's apply engine:
the hosts-file managed-block editor (`internal/hostsfile`), the Caddy include
renderer/synchronizer (`internal/caddy`), and the CLI orchestrator
(`internal/cli.App.applyState`), together with proofs about their behaviour.

Modelling conventions:
* Go strings are `List Char` (named `Str`).  All data manipulated by the
  program is ASCII, where byte-wise and character-wise operations coincide.
* The filesystem is a map from paths to optional file contents
  (`FS := Str → Option Str`).  Directories are not modelled (`MkdirAll` has
  no observable effect on file contents), and I/O is modelled as succeeding:
  the theorems below are about runs in which reads and writes do not fail
  with permission errors, which is the situation the verified claims are
  about.  "File does not exist" is `none`, matching the code's explicit
  handling of `fs.ErrNotExist`.
* `filesystem.ExpandUser` consults `os.UserHomeDir` for paths starting with
  a tilde; that environment lookup is outside the model, so tilde paths are
  modelled as unresolvable (`none`).  All theorems use plain absolute paths,
  for which `ExpandUser` is the identity, exactly as in the source.
* Clock values (`Manager.Clock.Now` formatted into backup/temp file names)
  and the reload process's exit status and captured output are inputs of the
  model environment.
-/

namespace Devhosts

/-! ### Strings as character lists -/

/-- The model's string type: Go strings as lists of characters. -/
abbrev Str := List Char

/-- Embed a Lean string literal into the model's string type. -/
def str (s : String) : Str := s.data

/-- Go `strings.Split(s, "\n")`: split on every newline; splitting the empty
string yields one empty piece, and a trailing newline yields a trailing empty
piece, exactly as in Go. -/
def splitNl : Str → List Str
  | [] => [[]]
  | c :: rest =>
    if c = '\n' then [] :: splitNl rest
    else
      match splitNl rest with
      | [] => [[c]]
      | l :: ls => (c :: l) :: ls

/-- Go `strings.Join(l, "\n")`. -/
def joinNl : List Str → Str
  | [] => []
  | [x] => x
  | x :: y :: ys => x ++ '\n' :: joinNl (y :: ys)

/-- Go `strings.Join(l, " ")`. -/
def joinSp : List Str → Str
  | [] => []
  | [x] => x
  | x :: y :: ys => x ++ ' ' :: joinSp (y :: ys)

/-- Go `strings.Join(l, "\n\n")` (blocks separated by one blank line). -/
def joinBlankLine : List Str → Str
  | [] => []
  | [x] => x
  | x :: y :: ys => x ++ '\n' :: '\n' :: joinBlankLine (y :: ys)

/-- Go `strings.HasSuffix(s, "\n")`. -/
def endsWithNl (s : Str) : Bool := s.getLast? == some '\n'

/-- Go `strings.TrimSpace`: remove leading and trailing whitespace. -/
def trimSpace (s : Str) : Str :=
  ((s.dropWhile Char.isWhitespace).reverse.dropWhile Char.isWhitespace).reverse

/-- Go `strings.Contains(s, pat)` (argument order: pattern first). -/
def containsSub (pat : Str) : Str → Bool
  | [] => pat.isEmpty
  | c :: rest => pat.isPrefixOf (c :: rest) || containsSub pat rest

/-- Helper for `goFields`: split on every whitespace character. -/
def splitWs : Str → List Str
  | [] => [[]]
  | c :: rest =>
    if c.isWhitespace then [] :: splitWs rest
    else
      match splitWs rest with
      | [] => [[c]]
      | l :: ls => (c :: l) :: ls

/-- Go `strings.Fields`: the maximal runs of non-whitespace characters. -/
def goFields (s : Str) : List Str := (splitWs s).filter (fun x => x ≠ [])

/-- Byte-lexicographic string comparison, as used by Go `sort.Strings`.
(For UTF-8 encoded strings byte order and codepoint order agree.) -/
def strLe : Str → Str → Bool
  | [], _ => true
  | _ :: _, [] => false
  | a :: as, b :: bs => if a = b then strLe as bs else decide (a < b)

instance strLeDecRel : DecidableRel (fun a b : Str => strLe a b = true) :=
  fun _ _ => Bool.decEq _ _

/-- Go `sort.Strings`: the (unique) `strLe`-sorted arrangement of the list,
realised by insertion sort. -/
def sortStrings (names : List Str) : List Str :=
  List.insertionSort (fun a b => strLe a b = true) names

/-! ### The filesystem model -/

/-- A filesystem maps each path to the file's contents, or `none` when no
file exists at that path. -/
abbrev FS := Str → Option Str

/-- Effect of `WriteFile` / the target side of a successful `Rename`. -/
def writeFS (fs : FS) (p c : Str) : FS := fun q => if q = p then some c else fs q

/-- Effect of `Remove` / the source side of a successful `Rename`. -/
def removeFS (fs : FS) (p : Str) : FS := fun q => if q = p then none else fs q

/-- Build a concrete filesystem from a list of path/content pairs. -/
def fsOf (entries : List (Str × Str)) : FS :=
  fun p => (entries.find? (fun e => e.1 == p)).map (fun e => e.2)

/-- `filesystem.ExpandUser`: a path that is empty or does not start with a
tilde is returned unchanged.  Tilde expansion consults the ambient home
directory, which is outside this model, so such paths are unresolvable here;
no theorem below uses a tilde path. -/
def expandUser : Str → Option Str
  | [] => some []
  | c :: rest => if c = '~' then none else some (c :: rest)

/-! ### `internal/state`: the data model -/

/-- `state.Host`: one managed hostname with its upstream and TLS flag. -/
structure Host where
  name : Str
  upstream : Str
  tls : Bool
deriving DecidableEq, Repr

/-! ### `internal/hostsfile`: the managed-block editor -/

/-- The begin marker line of the managed block. -/
def blockStart : Str := str "# >>> devhosts BEGIN"

/-- The end marker line of the managed block. -/
def blockEnd : Str := str "# <<< devhosts END"

/-- The scanning loop of `stripManagedBlock`:  walk the lines with the
`inside`/`removed` flags, accumulating kept lines in `out`.  `none` models
the two abort paths (a nested begin marker, or the file ending while still
inside the block), where the Go code returns the content unchanged. -/
def stripLoop : List Str → Bool → Bool → List Str → Option (List Str × Bool)
  | [], inside, removed, out => if inside then none else some (out, removed)
  | line :: rest, inside, removed, out =>
    if line = blockStart then
      if inside then none else stripLoop rest true true out
    else if line = blockEnd then
      if inside then stripLoop rest false removed out
      else stripLoop rest inside removed (out ++ [line])
    else if inside then stripLoop rest inside removed out
    else stripLoop rest inside removed (out ++ [line])

/-- The Go loop `for len(out) > 0 && out[len(out)-1] == "" { ... }`:
drop trailing empty lines. -/
def dropTrailingEmpties (l : List Str) : List Str :=
  (l.reverse.dropWhile (fun x => x = [])).reverse

/-- `hostsfile.stripManagedBlock`: remove the managed region, keeping
unmatched end markers, collapsing trailing blank lines, and aborting (content
returned unchanged, `removed = false`) on a nested begin marker or an
unterminated block. -/
def stripManagedBlock (content : Str) : Str × Bool :=
  match stripLoop (splitNl content) false false [] with
  | none => (content, false)
  | some (out0, removed) =>
    let out := dropTrailingEmpties out0
    if out = [] then ([], removed)
    else
      let result := joinNl out
      if result = [] then (result, removed) else (result ++ str "\n", removed)

/-- `hostsfile.extractHostnames`: the non-empty host names, sorted. -/
def extractHostnames (hosts : List Host) : List Str :=
  sortStrings ((hosts.filter (fun h => h.name ≠ [])).map Host.name)

/-- `hostsfile.buildBlock`: the rendered managed block, or nothing for an
empty name list. -/
def buildBlock (names : List Str) : Str :=
  if names = [] then []
  else blockStart ++ str "\n127.0.0.1    " ++ joinSp names ++ str "\n" ++ blockEnd ++ str "\n"

/-- The content computation of `hostsfile.Manager.Apply` (lines 65–78):
strip the existing block and append the freshly rendered one, fixing up
newlines exactly as the Go code does. -/
def hostsFinal (original : Str) (hosts : List Host) : Str :=
  let withoutBlock := (stripManagedBlock original).1
  let block := buildBlock (extractHostnames hosts)
  let final0 :=
    if block ≠ [] then
      (if withoutBlock ≠ [] ∧ endsWithNl withoutBlock = false
        then withoutBlock ++ str "\n" else withoutBlock) ++ block
    else withoutBlock
  if final0 ≠ [] ∧ endsWithNl final0 = false then final0 ++ str "\n" else final0

/-- `hostsfile.ApplyResult`. -/
structure ApplyResult where
  changed : Bool
  backupPath : Str
  path : Str
deriving DecidableEq, Repr

/-- `hostsfile.Manager.Apply` in the error-free filesystem model.  `stamp`
and `nano` are the formatted clock values used in the backup and temporary
file names.  `none` models only the `ExpandUser` failure on tilde paths. -/
def hostsApply (fs : FS) (path : Str) (hosts : List Host) (stamp nano : Str) :
    Option (FS × ApplyResult) :=
  match expandUser path with
  | none => none
  | some resolved =>
    let original := (fs resolved).getD []
    let existed := (fs resolved).isSome
    let final := hostsFinal original hosts
    if original = final then some (fs, ⟨false, [], []⟩)
    else
      let backupPath := if existed then resolved ++ str ".devhosts.bak-" ++ stamp else []
      let fs1 := if existed then writeFS fs backupPath original else fs
      let tempPath := resolved ++ str ".devhosts.tmp-" ++ nano
      let fs2 := writeFS fs1 tempPath final
      let fs3 := writeFS (removeFS fs2 tempPath) resolved final
      some (fs3, ⟨true, backupPath, resolved⟩)

/-- `hostsfile.Manager.Restore`: no-op for an empty path; re-apply the empty
host list when no backup was taken; otherwise copy the backup back.  `none`
models the error paths (unreadable backup, or `Apply` failing). -/
def hostsRestore (fs : FS) (res : ApplyResult) (stamp nano : Str) : Option FS :=
  if res.path = [] then some fs
  else if res.backupPath = [] then (hostsApply fs res.path [] stamp nano).map Prod.fst
  else
    match fs res.backupPath with
    | none => none
    | some data => some (writeFS fs res.path data)

/-! ### `internal/caddy`: renderer, include synchronizer -/

/-- `caddy.Manager.GenerateInclude`: render one site block per host,
blocks separated by a blank line, with a single trailing newline; the empty
host list renders to the empty string. -/
def generateInclude (hosts : List Host) : Str :=
  if hosts = [] then []
  else
    let blocks := hosts.map (fun h =>
      let lines1 := [h.name ++ str " \x7b"]
      let lines2 := if h.tls then lines1 ++ [str "  tls internal", []] else lines1
      let lines3 := lines2 ++ [str "  reverse_proxy " ++ h.upstream, str "\x7d"]
      joinNl lines3)
    joinBlankLine blocks ++ str "\n"

/-- `caddy.UpdateResult`. -/
structure UpdateResult where
  changed : Bool
  path : Str
  previous : Str
  existed : Bool
deriving DecidableEq, Repr

/-- `caddy.Manager.UpdateInclude` in the error-free filesystem model:
read the previous contents (absence is a valid empty-previous state), return
`changed = false` when the file exists with identical bytes, otherwise write
via temp file and rename.  `none` models only the tilde-path failure. -/
def updateInclude (fs : FS) (path content : Str) (nano : Str) :
    Option (FS × UpdateResult) :=
  match expandUser path with
  | none => none
  | some resolved =>
    let previous := (fs resolved).getD []
    let existed := (fs resolved).isSome
    if existed ∧ previous = content then some (fs, ⟨false, resolved, previous, true⟩)
    else
      let tempPath := resolved ++ str ".devhosts.tmp-" ++ nano
      let fs1 := writeFS fs tempPath content
      let fs2 := writeFS (removeFS fs1 tempPath) resolved content
      some (fs2, ⟨true, resolved, previous, existed⟩)

/-- `caddy.Manager.RestoreInclude`: delete the file when it did not exist
before, otherwise write back the previous bytes. -/
def restoreInclude (fs : FS) (res : UpdateResult) : FS :=
  if res.path = [] then fs
  else if res.existed = false then removeFS fs res.path
  else writeFS fs res.path res.previous

/-- `caddy.altHomeToken`: the `~`-abbreviated form of a path under the home
directory, or empty when there is no home directory or the path is not under
it. -/
def altHomeToken (home : Option Str) (path : Str) : Str :=
  match home with
  | none => []
  | some h => if (h ++ str "/").isPrefixOf path then '~' :: path.drop h.length else []

/-- `caddy.ensureImportPresent` (as a Bool: `true` means the import was
found). -/
def ensureImportPresent (home : Option Str) (content incPath : Str) : Bool :=
  let alt := altHomeToken home incPath
  let tokens := incPath :: (if alt ≠ [] then [alt] else [])
  tokens.any (fun t =>
    containsSub (str "import \x22" ++ t ++ str "\x22") content ||
    containsSub (str "import " ++ t) content)

/-- `caddy.usesTildeImport`: an import line whose target is the
`~`-abbreviated include path. -/
def usesTildeImport (home : Option Str) (content incPath : Str) : Bool :=
  let alt := altHomeToken home incPath
  if alt = [] then false
  else
    let quoted := '"' :: alt ++ ['"']
    (splitNl content).any (fun line =>
      let trimmed := trimSpace line
      if (str "import").isPrefixOf trimmed = false then false
      else
        match goFields trimmed with
        | _ :: target :: _ => target == alt || target == quoted
        | _ => false)

/-- `caddy.unique`'s deduplication loop over a sorted list (`prev` starts as
the empty string). -/
def dedupGo : List Str → Str → List Str
  | [], _ => []
  | v :: rest, prev => if v ≠ prev then v :: dedupGo rest v else dedupGo rest prev

/-- `caddy.unique`: sort, then drop adjacent duplicates. -/
def uniqueGo (values : List Str) : List Str :=
  if values = [] then values else dedupGo (sortStrings values) []

/-- `caddy.detectConflicts`: the managed names that some line of the parent
configuration appears to define (a site-block header token). -/
def detectConflicts (content : Str) (hosts : List Host) : List Str :=
  if hosts = [] then []
  else
    let names := (hosts.filter (fun h => h.name ≠ [])).map Host.name
    let conflicts := (splitNl content).flatMap (fun raw =>
      let trimmed := trimSpace raw
      names.filter (fun name =>
        trimmed == name ++ str "\x7b" ||
        (name ++ str " ").isPrefixOf trimmed ||
        (name ++ str "\x7b").isPrefixOf trimmed))
    uniqueGo conflicts

/-- The distinguishable failures of `caddy.Manager.EnsureBaseReady`. -/
inductive BaseError where
  | pathUnresolved
  | readFailed
  | missingImport
  | tildeImport
  | conflictingHosts (names : List Str)
deriving DecidableEq, Repr

/-- `caddy.Manager.EnsureBaseReady`: read-only validation of the parent
Caddyfile — the include must be imported (not via `~`), and no managed host
may be independently defined.  Returns `none` when the base is ready. -/
def ensureBaseReady (home : Option Str) (fs : FS) (basePath incPath : Str)
    (hosts : List Host) : Option BaseError :=
  match expandUser basePath with
  | none => some .pathUnresolved
  | some resolvedBase =>
    match fs resolvedBase with
    | none => some .readFailed
    | some content =>
      if ensureImportPresent home content incPath = false then some .missingImport
      else if usesTildeImport home content incPath then some .tildeImport
      else if detectConflicts content hosts ≠ [] then
        some (.conflictingHosts (detectConflicts content hosts))
      else none

/-! ### `internal/cli`: the apply orchestrator -/

/-- `state.Snapshot`, restricted to the fields `applyState` reads. -/
structure Snapshot where
  hosts : List Host
  baseCaddyfile : Str
  includeCaddyfile : Str
deriving Repr

/-- `cli.applyOutcome`: the two write results returned on success. -/
structure Outcome where
  includeRes : UpdateResult
  hostsRes : ApplyResult
deriving DecidableEq, Repr

/-- The errors `cli.App.applyState` can surface in this model. -/
inductive ApplyError where
  | base (e : BaseError)
  | includePathInvalid
  | hostsPathInvalid
  | reloadFailed (details : Str)
deriving DecidableEq, Repr

/-- Result of one orchestrated apply. -/
inductive ApplyRes where
  | ok (outcome : Outcome)
  | err (e : ApplyError)
deriving DecidableEq, Repr

/-- The orchestrator's observable steps, recorded in source order so that
the rollback order is part of the model's output. -/
inductive Event where
  | updatedInclude
  | appliedHosts
  | reloaded
  | restoredInclude
  | restoredHosts
deriving DecidableEq, Repr

/-- The ambient world of one `applyState` call: home directory, filesystem,
the hosts-file path configured on the `App`, the clock values used for
backup/temp names (one pair for the hosts apply, one for the nested apply
inside a rollback `Restore`), and the reload process's outcome. -/
structure Env where
  home : Option Str
  fs : FS
  hostsPath : Str
  includeNano : Str
  hostsStamp : Str
  hostsNano : Str
  restoreStamp : Str
  restoreNano : Str
  reloadOk : Bool
  reloadStdout : Str
  reloadStderr : Str

/-- `cli.App.applyState` (cli.go lines 297–328): validate the base Caddyfile
read-only, write the include fragment, write the managed hosts block, reload
Caddy; on a reload failure restore the include first and the hosts file
second (in that source order), surfacing the trimmed stderr (falling back to
stdout) of the reload.  The event list records the steps in execution
order. -/
def applyState (env : Env) (snap : Snapshot) : FS × List Event × ApplyRes :=
  match ensureBaseReady env.home env.fs snap.baseCaddyfile snap.includeCaddyfile snap.hosts with
  | some e => (env.fs, [], .err (.base e))
  | none =>
    match updateInclude env.fs snap.includeCaddyfile (generateInclude snap.hosts)
        env.includeNano with
    | none => (env.fs, [], .err .includePathInvalid)
    | some (fs1, includeRes) =>
      match hostsApply fs1 env.hostsPath snap.hosts env.hostsStamp env.hostsNano with
      | none =>
        (restoreInclude fs1 includeRes, [.updatedInclude, .restoredInclude],
          .err .hostsPathInvalid)
      | some (fs2, hostsRes) =>
        if env.reloadOk then
          (fs2, [.updatedInclude, .appliedHosts, .reloaded], .ok ⟨includeRes, hostsRes⟩)
        else
          let fs3 := restoreInclude fs2 includeRes
          let fs4 := (hostsRestore fs3 hostsRes env.restoreStamp env.restoreNano).getD fs3
          let details :=
            if trimSpace env.reloadStderr = [] then trimSpace env.reloadStdout
            else trimSpace env.reloadStderr
          (fs4, [.updatedInclude, .appliedHosts, .restoredInclude, .restoredHosts],
            .err (.reloadFailed details))

/-! ## Infrastructure lemmas -/

/-- `splitNl` never returns the empty list of pieces. -/
theorem splitNl_ne_nil (s : Str) : splitNl s ≠ [] := by
  induction s with
  | nil => simp [splitNl]
  | cons c rest ih =>
    simp only [splitNl]
    split
    · simp
    · cases h : splitNl rest <;> simp

theorem splitNl_cons_nl (s : Str) : splitNl ('\n' :: s) = [] :: splitNl s := by
  simp [splitNl]

theorem splitNl_cons (c : Char) (s : Str) (h : c ≠ '\n') :
    splitNl (c :: s) = (c :: (splitNl s).headI) :: (splitNl s).tail := by
  simp only [splitNl, if_neg h]
  cases hs : splitNl s with
  | nil => exact absurd hs (splitNl_ne_nil s)
  | cons l ls => simp

/-- Splitting `l ++ "\n" ++ s` when `l` is newline-free peels off `l`. -/
theorem splitNl_append_nl (l s : Str) (h : '\n' ∉ l) :
    splitNl (l ++ '\n' :: s) = l :: splitNl s := by
  induction l with
  | nil => simpa using splitNl_cons_nl s
  | cons c cs ih =>
    have hc : c ≠ '\n' := fun hcc => h (hcc ▸ List.mem_cons_self c cs)
    have hcs : '\n' ∉ cs := fun hm => h (List.mem_cons_of_mem c hm)
    rw [List.cons_append, splitNl_cons c _ hc, ih hcs]
    simp

theorem splitNl_no_nl (l : Str) (h : '\n' ∉ l) : splitNl l = [l] := by
  induction l with
  | nil => simp [splitNl]
  | cons c cs ih =>
    have hc : c ≠ '\n' := fun hcc => h (hcc ▸ List.mem_cons_self c cs)
    have hcs : '\n' ∉ cs := fun hm => h (List.mem_cons_of_mem c hm)
    rw [splitNl_cons c cs hc, ih hcs]
    simp

/-- Every piece produced by `splitNl` is newline-free. -/
theorem splitNl_pieces_no_nl (s : Str) : ∀ l ∈ splitNl s, '\n' ∉ l := by
  induction s with
  | nil => simp [splitNl]
  | cons c rest ih =>
    by_cases hc : c = '\n'
    · subst hc
      rw [splitNl_cons_nl]
      intro l hl
      rcases List.mem_cons.1 hl with h | h
      · simp [h]
      · exact ih l h
    · rw [splitNl_cons c rest hc]
      cases hs : splitNl rest with
      | nil => exact absurd hs (splitNl_ne_nil rest)
      | cons a as =>
        intro l hl
        rcases List.mem_cons.1 hl with h | h
        · subst h
          intro hm
          rcases List.mem_cons.1 hm with h1 | h1
          · exact hc h1.symm
          · exact ih a (by simp [hs]) h1
        · simp only [List.tail_cons] at h
          exact ih l (by rw [hs]; exact List.mem_cons_of_mem a h)

/-- Splitting the join of a nonempty list of newline-free pieces followed by
`"\n" ++ s` recovers the pieces. -/
theorem splitNl_joinNl_append (xs : List Str) (s : Str) (hne : xs ≠ [])
    (hfree : ∀ x ∈ xs, '\n' ∉ x) :
    splitNl (joinNl xs ++ '\n' :: s) = xs ++ splitNl s := by
  induction xs with
  | nil => exact absurd rfl hne
  | cons x ys ih =>
    cases ys with
    | nil =>
      rw [joinNl]
      simpa using splitNl_append_nl x s (hfree x (List.mem_cons_self x []))
    | cons y zs =>
      have hx : '\n' ∉ x := hfree x (List.mem_cons_self x _)
      have step : joinNl (x :: y :: zs) ++ '\n' :: s =
          x ++ '\n' :: (joinNl (y :: zs) ++ '\n' :: s) := by
        rw [joinNl]; simp
      rw [step, splitNl_append_nl x _ hx,
        ih (by simp) (fun z hz => hfree z (List.mem_cons_of_mem x hz))]
      simp

theorem joinNl_eq_nil_iff (xs : List Str) : joinNl xs = [] ↔ xs = [] ∨ xs = [[]] := by
  match xs with
  | [] => simp [joinNl]
  | [x] => simp [joinNl]
  | x :: y :: zs =>
    rw [joinNl]
    constructor
    · intro h
      exact absurd (congrArg List.length h) (by simp)
    · intro h
      rcases h with h | h <;> simp at h

/-- The sublist dropped from the end by `dropTrailingEmpties` only removes
empty lines, so any nonempty member survives. -/
theorem mem_dropTrailingEmpties {x : Str} {l : List Str} (hx : x ≠ []) (hmem : x ∈ l) :
    x ∈ dropTrailingEmpties l := by
  unfold dropTrailingEmpties
  rw [List.mem_reverse]
  have hrev : x ∈ l.reverse := List.mem_reverse.2 hmem
  have hsplit := List.takeWhile_append_dropWhile (fun z : Str => decide (z = [])) l.reverse
  rw [← hsplit] at hrev
  rcases List.mem_append.1 hrev with h | h
  · exact absurd (of_decide_eq_true
      (List.mem_takeWhile_imp (p := fun z : Str => decide (z = [])) h)) hx
  · exact h

theorem mem_of_mem_dropTrailingEmpties {x : Str} {l : List Str}
    (h : x ∈ dropTrailingEmpties l) : x ∈ l := by
  unfold dropTrailingEmpties at h
  rw [List.mem_reverse] at h
  exact List.mem_reverse.1 (List.dropWhile_sublist _ |>.mem h)

theorem dropTrailingEmpties_getLast? (l : List Str) :
    dropTrailingEmpties l = [] ∨ (dropTrailingEmpties l).getLast? ≠ some [] := by
  unfold dropTrailingEmpties
  cases hd : l.reverse.dropWhile (fun x => decide (x = [])) with
  | nil => left; simp
  | cons a as =>
    right
    have h0 := List.head?_dropWhile_not (fun x : Str => decide (x = [])) l.reverse
    rw [hd] at h0
    simp only [List.head?_cons] at h0
    have hlast : (as.reverse ++ [a]).getLast? = some a := List.getLast?_concat _
    simp only [List.reverse_cons, hlast]
    intro hc
    have : a = [] := by simpa using hc
    simp [this] at h0

theorem dropTrailingEmpties_append_nil (l : List Str) :
    dropTrailingEmpties (l ++ [[]]) = dropTrailingEmpties l := by
  unfold dropTrailingEmpties
  simp [List.dropWhile]

theorem dropTrailingEmpties_of_getLast? {l : List Str} (h : l.getLast? ≠ some []) :
    dropTrailingEmpties l = l := by
  unfold dropTrailingEmpties
  cases hr : l.reverse with
  | nil =>
    have : l = [] := by simpa using congrArg List.reverse hr
    simp [this]
  | cons a as =>
    have hne : a ≠ [] := by
      intro ha
      apply h
      have : l.getLast? = l.reverse.head? := by simp
      rw [this, hr, ha]
      rfl
    rw [List.dropWhile_cons, if_neg (by simpa using hne)]
    simpa using congrArg List.reverse hr.symm

/-! ### Facts about the markers and the rendered mapping line -/

theorem nl_not_mem_blockStart : '\n' ∉ blockStart := by decide

theorem nl_not_mem_blockEnd : '\n' ∉ blockEnd := by decide

theorem mapLine_ne_blockStart (j : Str) : str "127.0.0.1    " ++ j ≠ blockStart := by
  rw [(by decide : str "127.0.0.1    " = '1' :: str "27.0.0.1    "),
    (by decide : blockStart = '#' :: str " >>> devhosts BEGIN")]
  simp only [List.cons_append, ne_eq, List.cons.injEq, not_and]
  intro h
  exact absurd h (by decide)

theorem mapLine_ne_blockEnd (j : Str) : str "127.0.0.1    " ++ j ≠ blockEnd := by
  rw [(by decide : str "127.0.0.1    " = '1' :: str "27.0.0.1    "),
    (by decide : blockEnd = '#' :: str " <<< devhosts END")]
  simp only [List.cons_append, ne_eq, List.cons.injEq, not_and]
  intro h
  exact absurd h (by decide)

/-- Joining newline-free pieces with single spaces yields a newline-free
string. -/
theorem joinSp_no_nl (xs : List Str) (h : ∀ x ∈ xs, '\n' ∉ x) : '\n' ∉ joinSp xs := by
  induction xs with
  | nil => simp [joinSp]
  | cons x ys ih =>
    cases ys with
    | nil => simpa [joinSp] using h x (List.mem_cons_self x [])
    | cons y zs =>
      rw [joinSp]
      intro hm
      rcases List.mem_append.1 hm with hm | hm
      · exact h x (List.mem_cons_self x _) hm
      · rcases List.mem_cons.1 hm with hm | hm
        · exact absurd hm.symm (by decide)
        · exact ih (fun z hz => h z (List.mem_cons_of_mem x hz)) hm

theorem endsWithNl_concat (a : Str) : endsWithNl (a ++ ['\n']) = true := by
  simp [endsWithNl, List.getLast?_concat]

theorem endsWithNl_append (a b : Str) (hb : endsWithNl b = true) :
    endsWithNl (a ++ b) = true := by
  have hbne : b ≠ [] := by
    intro h
    rw [h] at hb
    simp [endsWithNl] at hb
  simp only [endsWithNl, beq_iff_eq] at hb ⊢
  rw [List.getLast?_append_of_ne_nil a hbne]
  exact hb

/-! ### The strip loop on marker-free and block-shaped line lists -/

/-- A run of lines containing no begin marker is passed through unchanged by
the strip loop (unmatched end markers are kept). -/
theorem stripLoop_no_start (ls : List Str) (rm : Bool) (out : List Str)
    (h : ∀ l ∈ ls, l ≠ blockStart) :
    stripLoop ls false rm out = some (out ++ ls, rm) := by
  induction ls generalizing out with
  | nil => simp [stripLoop]
  | cons line rest ih =>
    have hline : line ≠ blockStart := h line (List.mem_cons_self _ _)
    have hrest : ∀ l ∈ rest, l ≠ blockStart := fun l hl => h l (List.mem_cons_of_mem _ hl)
    simp only [stripLoop, if_neg hline]
    by_cases hbe : line = blockEnd
    · simp only [if_pos hbe, Bool.false_eq_true, if_false, ih _ hrest]
      simp [hbe]
    · simp only [if_neg hbe, Bool.false_eq_true, if_false, ih _ hrest]
      simp

/-- The strip loop distributes over an initial marker-free run of lines. -/
theorem stripLoop_append_no_start (xs ys : List Str) (rm : Bool) (out : List Str)
    (h : ∀ l ∈ xs, l ≠ blockStart) :
    stripLoop (xs ++ ys) false rm out = stripLoop ys false rm (out ++ xs) := by
  induction xs generalizing out with
  | nil => simp
  | cons line rest ih =>
    have hline : line ≠ blockStart := h line (List.mem_cons_self _ _)
    have hrest : ∀ l ∈ rest, l ≠ blockStart := fun l hl => h l (List.mem_cons_of_mem _ hl)
    simp only [List.cons_append, stripLoop, if_neg hline]
    by_cases hbe : line = blockEnd
    · simp only [if_pos hbe, Bool.false_eq_true, if_false]
      rw [List.append_eq, ih _ hrest]
      simp [hbe]
    · simp only [if_neg hbe, Bool.false_eq_true, if_false]
      rw [List.append_eq, ih _ hrest]
      simp

/-- Consuming a well-formed rendered block: begin marker, one interior line,
end marker, final empty piece. -/
theorem stripLoop_block (m : Str) (rm : Bool) (out : List Str)
    (hm1 : m ≠ blockStart) (hm2 : m ≠ blockEnd) :
    stripLoop ([blockStart, m, blockEnd, []]) false rm out = some (out ++ [[]], true) := by
  have h1 : blockStart ≠ blockEnd := by decide
  have h2 : ([] : Str) ≠ blockStart := by decide
  have h3 : ([] : Str) ≠ blockEnd := by decide
  have h4 : blockEnd ≠ blockStart := by decide
  simp [stripLoop, hm1, hm2, h1, h2, h3, h4]

/-- The result accumulated by a successful strip loop contains no begin
marker. -/
theorem stripLoop_out_no_start (ls : List Str) (i : Bool) (rm : Bool) (out out1 : List Str)
    (r : Bool) (h : stripLoop ls i rm out = some (out1, r))
    (hout : ∀ l ∈ out, l ≠ blockStart) : ∀ l ∈ out1, l ≠ blockStart := by
  induction ls generalizing i rm out with
  | nil =>
    simp only [stripLoop] at h
    split at h
    · exact absurd h (by simp)
    · have hout1 : out1 = out := (Prod.ext_iff.1 (Option.some.inj h)).1.symm
      subst hout1
      exact hout
  | cons line rest ih =>
    simp only [stripLoop] at h
    by_cases hbs : line = blockStart
    · rw [if_pos hbs] at h
      by_cases hi : i = true
      · simp [hi] at h
      · simp only [Bool.not_eq_true] at hi
        rw [hi] at h
        simp only [Bool.false_eq_true, if_false] at h
        exact ih _ _ _ h hout
    · rw [if_neg hbs] at h
      by_cases hbe : line = blockEnd
      · rw [if_pos hbe] at h
        by_cases hi : i = true
        · rw [hi] at h
          simp only [if_true] at h
          exact ih _ _ _ h hout
        · simp only [Bool.not_eq_true] at hi
          rw [hi] at h
          simp only [Bool.false_eq_true, if_false] at h
          refine ih _ _ _ h ?_
          intro l hl
          rcases List.mem_append.1 hl with hl | hl
          · exact hout l hl
          · rw [List.mem_singleton.1 hl, hbe]
            decide
      · rw [if_neg hbe] at h
        by_cases hi : i = true
        · rw [hi] at h
          simp only [if_true] at h
          exact ih _ _ _ h hout
        · simp only [Bool.not_eq_true] at hi
          rw [hi] at h
          simp only [Bool.false_eq_true, if_false] at h
          refine ih _ _ _ h ?_
          intro l hl
          rcases List.mem_append.1 hl with hl | hl
          · exact hout l hl
          · rw [List.mem_singleton.1 hl]
            exact hbs

/-- Every line accumulated by the strip loop came from the accumulator or
from the input lines. -/
theorem stripLoop_out_mem (ls : List Str) (i : Bool) (rm : Bool) (out out1 : List Str)
    (r : Bool) (h : stripLoop ls i rm out = some (out1, r)) :
    ∀ l ∈ out1, l ∈ out ∨ l ∈ ls := by
  induction ls generalizing i rm out with
  | nil =>
    simp only [stripLoop] at h
    split at h
    · exact absurd h (by simp)
    · have hout1 : out1 = out := (Prod.ext_iff.1 (Option.some.inj h)).1.symm
      subst hout1
      intro l hl
      exact Or.inl hl
  | cons line rest ih =>
    simp only [stripLoop] at h
    by_cases hbs : line = blockStart
    · rw [if_pos hbs] at h
      by_cases hi : i = true
      · simp [hi] at h
      · simp only [Bool.not_eq_true] at hi
        rw [hi] at h
        simp only [Bool.false_eq_true, if_false] at h
        intro l hl
        rcases ih _ _ _ h l hl with h1 | h1
        · exact Or.inl h1
        · exact Or.inr (List.mem_cons_of_mem _ h1)
    · rw [if_neg hbs] at h
      have step : ∀ out2, stripLoop rest (if line = blockEnd then (if i then false else i)
          else i) rm out2 = some (out1, r) → (out2 = out ∨ out2 = out ++ [line]) →
          ∀ l ∈ out1, l ∈ out ∨ l ∈ line :: rest := by
        intro out2 h2 hcase l hl
        rcases ih _ _ _ h2 l hl with h1 | h1
        · rcases hcase with hc | hc
          · exact Or.inl (hc ▸ h1)
          · rw [hc] at h1
            rcases List.mem_append.1 h1 with h3 | h3
            · exact Or.inl h3
            · exact Or.inr (List.mem_singleton.1 h3 ▸ List.mem_cons_self _ _)
        · exact Or.inr (List.mem_cons_of_mem _ h1)
      by_cases hbe : line = blockEnd
      · rw [if_pos hbe] at h
        by_cases hi : i = true
        · rw [hi] at h
          simp only [if_true] at h
          exact step out (by simpa [hbe, hi] using h) (Or.inl rfl)
        · simp only [Bool.not_eq_true] at hi
          rw [hi] at h
          simp only [Bool.false_eq_true, if_false] at h
          exact step (out ++ [line]) (by simpa [hbe, hi] using h) (Or.inr rfl)
      · rw [if_neg hbe] at h
        by_cases hi : i = true
        · rw [hi] at h
          simp only [if_true] at h
          exact step out (by simpa [hbe, hi] using h) (Or.inl rfl)
        · simp only [Bool.not_eq_true] at hi
          rw [hi] at h
          simp only [Bool.false_eq_true, if_false] at h
          exact step (out ++ [line]) (by simpa [hbe, hi] using h) (Or.inr rfl)

/-! ### Characterizing `stripManagedBlock` on scan success -/

/-- Whether the managed-region scan completes without aborting (no nested
begin marker, no unterminated block). -/
def stripOk (content : Str) : Bool := (stripLoop (splitNl content) false false []).isSome

/-- The canonical joined form of a kept line list: empty for no lines,
otherwise the lines joined by newlines with one trailing newline. -/
def tidyStr (out : List Str) : Str := if out = [] then [] else joinNl out ++ ['\n']

theorem stripManagedBlock_of_loop (content : Str) (out0 : List Str) (removed : Bool)
    (h : stripLoop (splitNl content) false false [] = some (out0, removed)) :
    stripManagedBlock content = (tidyStr (dropTrailingEmpties out0), removed) := by
  unfold stripManagedBlock
  rw [h]
  by_cases ho : dropTrailingEmpties out0 = []
  · simp [ho, tidyStr]
  · have hl : (dropTrailingEmpties out0).getLast? ≠ some [] := by
      rcases dropTrailingEmpties_getLast? out0 with h1 | h1
      · exact absurd h1 ho
      · exact h1
    have hjoin : joinNl (dropTrailingEmpties out0) ≠ [] := by
      intro hj
      rcases (joinNl_eq_nil_iff _).1 hj with h1 | h1
      · exact ho h1
      · rw [h1] at hl
        exact hl rfl
    simp only [ho, if_false, hjoin, tidyStr]
    rw [(by decide : str "\n" = ['\n'])]

theorem strip_success_spec (content : Str) (out0 : List Str) (removed : Bool)
    (h : stripLoop (splitNl content) false false [] = some (out0, removed)) :
    stripManagedBlock content = (tidyStr (dropTrailingEmpties out0), removed) ∧
    (∀ l ∈ dropTrailingEmpties out0, l ≠ blockStart) ∧
    (∀ l ∈ dropTrailingEmpties out0, '\n' ∉ l) ∧
    (dropTrailingEmpties out0 = [] ∨ (dropTrailingEmpties out0).getLast? ≠ some []) := by
  refine ⟨stripManagedBlock_of_loop content out0 removed h, ?_, ?_, ?_⟩
  · intro l hl
    exact stripLoop_out_no_start _ _ _ _ _ _ h (by simp) l (mem_of_mem_dropTrailingEmpties hl)
  · intro l hl
    rcases stripLoop_out_mem _ _ _ _ _ _ h l (mem_of_mem_dropTrailingEmpties hl) with h1 | h1
    · simp at h1
    · exact splitNl_pieces_no_nl content l h1
  · exact dropTrailingEmpties_getLast? out0

theorem endsWithNl_tidyStr (out : List Str) :
    tidyStr out = [] ∨ endsWithNl (tidyStr out) = true := by
  by_cases ho : out = []
  · left; simp [tidyStr, ho]
  · right
    simp only [tidyStr, if_neg ho]
    exact endsWithNl_concat _

/-- Stripping a canonical joined form with no begin marker keeps it
unchanged (and reports nothing removed). -/
theorem strip_tidy (out : List Str)
    (hbs : ∀ l ∈ out, l ≠ blockStart)
    (hnl : ∀ l ∈ out, '\n' ∉ l)
    (hlast : out = [] ∨ out.getLast? ≠ some []) :
    stripManagedBlock (tidyStr out) = (tidyStr out, false) := by
  by_cases ho : out = []
  · subst ho
    have h : stripLoop (splitNl (tidyStr [])) false false [] = some ([[]], false) := by
      have := stripLoop_no_start [[]] false [] (by decide)
      simpa [tidyStr, splitNl] using this
    rw [stripManagedBlock_of_loop _ _ _ h]
    have : dropTrailingEmpties [[]] = [] := by decide
    simp [this, tidyStr]
  · have hl : out.getLast? ≠ some [] := hlast.resolve_left ho
    have hsplit : splitNl (tidyStr out) = out ++ [[]] := by
      simp only [tidyStr, if_neg ho]
      have : joinNl out ++ ['\n'] = joinNl out ++ '\n' :: [] := rfl
      rw [this, splitNl_joinNl_append out [] ho hnl]
      rfl
    have h : stripLoop (splitNl (tidyStr out)) false false [] = some (out ++ [[]], false) := by
      rw [hsplit, stripLoop_append_no_start out [[]] false [] hbs]
      have := stripLoop_no_start [[]] false ([] ++ out) (by decide)
      simpa using this
    rw [stripManagedBlock_of_loop _ _ _ h]
    rw [dropTrailingEmpties_append_nil, dropTrailingEmpties_of_getLast? hl]

/-- Stripping a canonical joined form followed by a freshly rendered block
removes exactly the block. -/
theorem strip_tidy_block (out names : List Str)
    (hbs : ∀ l ∈ out, l ≠ blockStart)
    (hnl : ∀ l ∈ out, '\n' ∉ l)
    (hlast : out = [] ∨ out.getLast? ≠ some [])
    (hnames : names ≠ [])
    (hnamesNl : '\n' ∉ joinSp names) :
    stripManagedBlock (tidyStr out ++ buildBlock names) = (tidyStr out, true) := by
  have hmnl : '\n' ∉ str "127.0.0.1    " ++ joinSp names := by
    intro hm
    rcases List.mem_append.1 hm with h1 | h1
    · exact absurd h1 (by decide)
    · exact hnamesNl h1
  have hbb : buildBlock names =
      blockStart ++ '\n' :: ((str "127.0.0.1    " ++ joinSp names) ++
        '\n' :: (blockEnd ++ '\n' :: [])) := by
    simp only [buildBlock, if_neg hnames]
    rw [(by decide : str "\n127.0.0.1    " = '\n' :: str "127.0.0.1    "),
      (by decide : str "\n" = ['\n'])]
    simp
  have hsplitB : splitNl (buildBlock names) = [blockStart,
      str "127.0.0.1    " ++ joinSp names, blockEnd, []] := by
    rw [hbb, splitNl_append_nl _ _ nl_not_mem_blockStart,
      splitNl_append_nl _ _ hmnl, splitNl_append_nl _ _ nl_not_mem_blockEnd]
    rfl
  have hblock : ∀ out2 : List Str,
      stripLoop [blockStart, str "127.0.0.1    " ++ joinSp names, blockEnd, []]
        false false out2 = some (out2 ++ [[]], true) :=
    fun out2 => stripLoop_block _ false out2 (mapLine_ne_blockStart _) (mapLine_ne_blockEnd _)
  by_cases ho : out = []
  · subst ho
    have h : stripLoop (splitNl (tidyStr [] ++ buildBlock names)) false false [] =
        some ([[]], true) := by
      have ht : tidyStr ([] : List Str) = [] := by simp [tidyStr]
      rw [ht, List.nil_append, hsplitB]
      simpa using hblock []
    rw [stripManagedBlock_of_loop _ _ _ h]
    have : dropTrailingEmpties [[]] = [] := by decide
    simp [this, tidyStr]
  · have hl : out.getLast? ≠ some [] := hlast.resolve_left ho
    have hsplit : splitNl (tidyStr out ++ buildBlock names) =
        out ++ [blockStart, str "127.0.0.1    " ++ joinSp names, blockEnd, []] := by
      simp only [tidyStr, if_neg ho]
      have hassoc : (joinNl out ++ ['\n']) ++ buildBlock names =
          joinNl out ++ '\n' :: buildBlock names := by simp
      rw [hassoc, splitNl_joinNl_append out _ ho hnl, hsplitB]
    have h : stripLoop (splitNl (tidyStr out ++ buildBlock names)) false false [] =
        some (out ++ [[]], true) := by
      rw [hsplit, stripLoop_append_no_start out _ false [] hbs]
      simpa using hblock out
    rw [stripManagedBlock_of_loop _ _ _ h]
    rw [dropTrailingEmpties_append_nil, dropTrailingEmpties_of_getLast? hl]

theorem buildBlock_ne_nil (names : List Str) (h : names ≠ []) : buildBlock names ≠ [] := by
  simp only [buildBlock, if_neg h]
  rw [(by decide : blockStart = '#' :: str " >>> devhosts BEGIN")]
  simp

theorem endsWithNl_buildBlock (names : List Str) (h : names ≠ []) :
    endsWithNl (buildBlock names) = true := by
  simp only [buildBlock, if_neg h]
  exact endsWithNl_append _ _ (by decide)

/-- When the stripped content is empty or newline-terminated (as it always is
after a successful scan), `Manager.Apply`'s content computation is exactly
"stripped content, then the rendered block". -/
theorem hostsFinal_eq_strip_append (content : Str) (hosts : List Host)
    (hstr : (stripManagedBlock content).1 = [] ∨
      endsWithNl (stripManagedBlock content).1 = true) :
    hostsFinal content hosts =
      (stripManagedBlock content).1 ++ buildBlock (extractHostnames hosts) := by
  unfold hostsFinal
  dsimp only
  have hcond : ¬ ((stripManagedBlock content).1 ≠ [] ∧
      endsWithNl (stripManagedBlock content).1 = false) := by
    rcases hstr with h1 | h1
    · simp [h1]
    · simp [h1]
  by_cases hB : buildBlock (extractHostnames hosts) = []
  · rw [if_neg (fun hcontra : buildBlock (extractHostnames hosts) ≠ [] => hcontra hB),
      if_neg hcond, hB, List.append_nil]
  · have hnames : extractHostnames hosts ≠ [] := by
      intro hn
      rw [hn] at hB
      exact hB rfl
    have hBend : endsWithNl (buildBlock (extractHostnames hosts)) = true :=
      endsWithNl_buildBlock _ hnames
    rw [if_pos hB, if_neg hcond]
    have hfend : endsWithNl ((stripManagedBlock content).1 ++
        buildBlock (extractHostnames hosts)) = true := endsWithNl_append _ _ hBend
    rw [if_neg (by simp [hfend] :
      ¬ ((stripManagedBlock content).1 ++ buildBlock (extractHostnames hosts) ≠ [] ∧
        endsWithNl ((stripManagedBlock content).1 ++
          buildBlock (extractHostnames hosts)) = false))]

/-- Packaging: on scan success the stripped content is in canonical joined
form. -/
theorem stripped_tidy_form (content : Str) (h : stripOk content = true) :
    ∃ out, (stripManagedBlock content).1 = tidyStr out ∧
      (∀ l ∈ out, l ≠ blockStart) ∧ (∀ l ∈ out, '\n' ∉ l) ∧
      (out = [] ∨ out.getLast? ≠ some []) := by
  unfold stripOk at h
  obtain ⟨pr, hpr⟩ := Option.isSome_iff_exists.1 h
  obtain ⟨out0, removed⟩ := pr
  obtain ⟨heq, hbs, hnl, hlast⟩ := strip_success_spec content out0 removed hpr
  exact ⟨dropTrailingEmpties out0, by rw [heq], hbs, hnl, hlast⟩

/-- Re-running `Manager.Apply`'s content computation on its own output is a
fixed point, provided the original scan succeeded and the hostnames are
single-line tokens. -/
theorem hostsFinal_idem (content : Str) (hosts : List Host) (h : stripOk content = true)
    (hnames : ∀ nm ∈ extractHostnames hosts, '\n' ∉ nm) :
    hostsFinal (hostsFinal content hosts) hosts = hostsFinal content hosts := by
  obtain ⟨out, hw, hbs, hnl, hlast⟩ := stripped_tidy_form content h
  have hends : (stripManagedBlock content).1 = [] ∨
      endsWithNl (stripManagedBlock content).1 = true := by
    rw [hw]; exact endsWithNl_tidyStr out
  have hfin : hostsFinal content hosts =
      tidyStr out ++ buildBlock (extractHostnames hosts) := by
    rw [hostsFinal_eq_strip_append content hosts hends, hw]
  by_cases hn : extractHostnames hosts = []
  · have hB : buildBlock (extractHostnames hosts) = [] := by rw [hn]; rfl
    have hfin2 : hostsFinal content hosts = tidyStr out := by
      rw [hfin, hB, List.append_nil]
    have hstrip2 : stripManagedBlock (hostsFinal content hosts) =
        (tidyStr out, false) := by
      rw [hfin2]
      exact strip_tidy out hbs hnl hlast
    rw [hostsFinal_eq_strip_append _ hosts (by rw [hstrip2]; exact endsWithNl_tidyStr out),
      hstrip2, hB, List.append_nil, hfin2]
  · have hjnl : '\n' ∉ joinSp (extractHostnames hosts) := joinSp_no_nl _ hnames
    have hstrip2 : stripManagedBlock (hostsFinal content hosts) =
        (tidyStr out, true) := by
      rw [hfin]
      exact strip_tidy_block out _ hbs hnl hlast hn hjnl
    rw [hostsFinal_eq_strip_append _ hosts (by rw [hstrip2]; exact endsWithNl_tidyStr out),
      hstrip2, hfin]

/-! ### The string comparison used by the sort -/

theorem strLe_total (a b : Str) : strLe a b = true ∨ strLe b a = true := by
  induction a generalizing b with
  | nil => left; rfl
  | cons x xs ih =>
    cases b with
    | nil => right; rfl
    | cons y ys =>
      by_cases hxy : x = y
      · subst hxy
        simp only [strLe, if_pos rfl]
        exact ih ys
      · rcases lt_trichotomy x y with h | h | h
        · left
          simp [strLe, hxy, h]
        · exact absurd h hxy
        · right
          have hyx : y ≠ x := fun e => hxy e.symm
          simp [strLe, hyx, h]

theorem strLe_trans (a b c : Str) (h1 : strLe a b = true) (h2 : strLe b c = true) :
    strLe a c = true := by
  induction a generalizing b c with
  | nil => rfl
  | cons x xs ih =>
    cases b with
    | nil => exact absurd h1 (by simp [strLe])
    | cons y ys =>
      cases c with
      | nil => exact absurd h2 (by simp [strLe])
      | cons z zs =>
        simp only [strLe] at h1 h2 ⊢
        by_cases hxy : x = y
        · subst hxy
          rw [if_pos rfl] at h1
          by_cases hxz : x = z
          · subst hxz
            rw [if_pos rfl] at h2 ⊢
            exact ih ys zs h1 h2
          · rw [if_neg hxz] at h2 ⊢
            exact h2
        · rw [if_neg hxy] at h1
          have hlt1 : x < y := of_decide_eq_true h1
          by_cases hyz : y = z
          · subst hyz
            rw [if_neg hxy]
            exact h1
          · rw [if_neg hyz] at h2
            have hlt2 : y < z := of_decide_eq_true h2
            have hxz : x < z := lt_trans hlt1 hlt2
            rw [if_neg (ne_of_lt hxz)]
            exact decide_eq_true hxz

instance : IsTotal Str (fun a b => strLe a b = true) := ⟨strLe_total⟩

instance : IsTrans Str (fun a b => strLe a b = true) := ⟨strLe_trans⟩

/-! ### Path arithmetic -/

theorem ne_append_of_not_isPre (r q : Str) (h : r.isPrefixOf q = false) :
    ∀ s : Str, r ++ s ≠ q := by
  intro s hq
  have : r.isPrefixOf q = true := List.isPrefixOf_iff_prefix.2 ⟨s, hq⟩
  rw [h] at this
  exact absurd this (by simp)

theorem ne_of_not_isPre (r q : Str) (h : r.isPrefixOf q = false) : q ≠ r := by
  intro e
  subst e
  have : q.isPrefixOf q = true := List.isPrefixOf_iff_prefix.2 (List.prefix_refl q)
  rw [h] at this
  exact absurd this (by simp)

theorem append_cons_ne_self (p : Str) (c : Char) (s : Str) : p ++ c :: s ≠ p := by
  intro h
  have := congrArg List.length h
  simp at this

theorem bak_ne_tmp (r s1 s2 : Str) :
    r ++ str ".devhosts.bak-" ++ s1 ≠ r ++ str ".devhosts.tmp-" ++ s2 := by
  intro h
  rw [List.append_assoc, List.append_assoc] at h
  have h2 := List.append_cancel_left h
  rw [(by decide : str ".devhosts.bak-" = str ".devhosts." ++ str "bak-"),
    (by decide : str ".devhosts.tmp-" = str ".devhosts." ++ str "tmp-"),
    List.append_assoc, List.append_assoc] at h2
  have h3 := List.append_cancel_left h2
  rw [(by decide : str "bak-" = 'b' :: str "ak-"),
    (by decide : str "tmp-" = 't' :: str "mp-")] at h3
  simp only [List.cons_append] at h3
  exact absurd (List.cons.inj h3).1 (by decide)

/-! ### Component-level specifications -/

theorem expandUser_of_resolved (p r : Str) (h : expandUser p = some r) :
    expandUser r = some r := by
  cases p with
  | nil =>
    simp only [expandUser, Option.some.injEq] at h
    subst h
    rfl
  | cons c cs =>
    simp only [expandUser] at h
    by_cases hc : c = '~'
    · rw [if_pos hc] at h
      exact absurd h (by simp)
    · rw [if_neg hc] at h
      have : r = c :: cs := (Option.some.inj h).symm
      subst this
      simp [expandUser, hc]

/-- The full behaviour of `UpdateInclude` on a resolvable path: result,
written contents, frame, change flag, and how `RestoreInclude` undoes it at
any later filesystem. -/
theorem updateInclude_spec (fs : FS) (p c n r : Str) (hexp : expandUser p = some r)
    (hr : r ≠ []) :
    ∃ fs1 res, updateInclude fs p c n = some (fs1, res) ∧
      fs1 r = some c ∧
      (∀ q, q ≠ r → q ≠ r ++ str ".devhosts.tmp-" ++ n → fs1 q = fs q) ∧
      (res.changed = false ↔ fs r = some c) ∧
      (∀ g : FS, restoreInclude g res r = fs r) ∧
      (∀ g : FS, ∀ q, q ≠ r → restoreInclude g res q = g q) := by
  unfold updateInclude
  rw [hexp]
  dsimp only
  by_cases hguard : ((fs r).isSome = true ∧ (fs r).getD [] = c)
  · obtain ⟨v, hv⟩ := Option.isSome_iff_exists.1 hguard.1
    have hvc : v = c := by
      have := hguard.2
      rw [hv] at this
      simpa using this
    subst hvc
    rw [if_pos hguard]
    refine ⟨fs, _, rfl, hv, fun q _ _ => rfl, by simp [hv], ?_, ?_⟩
    · intro g
      simp only [restoreInclude, if_neg hr]
      rw [if_neg (by simp)]
      simp [writeFS, hv]
    · intro g q hq
      simp only [restoreInclude, if_neg hr]
      rw [if_neg (by simp)]
      simp [writeFS, hq]
  · rw [if_neg hguard]
    refine ⟨_, _, rfl, ?_, ?_, ?_, ?_, ?_⟩
    · simp [writeFS]
    · intro q hq1 hq2
      have hq2' : q ≠ r ++ (str ".devhosts.tmp-" ++ n) := by
        rw [← List.append_assoc]
        exact hq2
      simp [writeFS, removeFS, hq1, hq2, hq2']
    · constructor
      · intro h
        exact absurd h (by simp)
      · intro h
        exact absurd ⟨by simp [h], by simp [h]⟩ hguard
    · intro g
      simp only [restoreInclude, if_neg hr]
      by_cases hex : (fs r).isSome = true
      · obtain ⟨v, hv⟩ := Option.isSome_iff_exists.1 hex
        rw [if_neg (by simp [hex])]
        simp [writeFS, hv]
      · rw [if_pos (by simpa using hex)]
        simp only [removeFS, if_pos rfl]
        cases hfs : fs r with
        | none => rfl
        | some v => exact absurd (by simp [hfs]) hex
    · intro g q hq
      simp only [restoreInclude, if_neg hr]
      by_cases hex : (fs r).isSome = true
      · rw [if_neg (by simp [hex])]
        simp [writeFS, hq]
      · rw [if_pos (by simpa using hex)]
        simp [removeFS, hq]

/-- `UpdateInclude` is a no-op when the file exists with identical bytes. -/
theorem updateInclude_noop (fs : FS) (p c n r : Str) (hexp : expandUser p = some r)
    (hcur : fs r = some c) :
    updateInclude fs p c n = some (fs, ⟨false, r, c, true⟩) := by
  unfold updateInclude
  rw [hexp]
  dsimp only
  rw [if_pos (by simp [hcur])]
  simp [hcur]

theorem hostsFinal_nil (hosts : List Host) :
    hostsFinal [] hosts = buildBlock (extractHostnames hosts) := by
  have hstrip : stripManagedBlock [] = ([], false) := by decide
  have := hostsFinal_eq_strip_append [] hosts (Or.inl (by rw [hstrip]))
  rw [this, hstrip]
  rfl

/-- `Manager.Apply` is a no-op exactly when the recomputed content equals
the current content. -/
theorem hostsApply_noop (fs : FS) (p : Str) (hosts : List Host) (st nn r : Str)
    (hexp : expandUser p = some r)
    (heq : (fs r).getD [] = hostsFinal ((fs r).getD []) hosts) :
    hostsApply fs p hosts st nn = some (fs, ⟨false, [], []⟩) := by
  unfold hostsApply
  rw [hexp]
  dsimp only
  rw [if_pos heq]

/-- The full behaviour of `Manager.Apply` on a resolvable path: result,
written contents, backup contents, frame, and the change flag. -/
theorem hostsApply_spec (fs : FS) (p : Str) (hosts : List Host) (st nn r : Str)
    (hexp : expandUser p = some r) (hr : r ≠ []) :
    ∃ fs2 res, hostsApply fs p hosts st nn = some (fs2, res) ∧
      (fs2 r).getD [] = hostsFinal ((fs r).getD []) hosts ∧
      (∀ q, q ≠ r → (∀ s : Str, q ≠ r ++ s) → fs2 q = fs q) ∧
      (res.changed = false → res = ⟨false, [], []⟩ ∧ fs2 = fs) ∧
      (res.changed = true → res.path = r ∧ fs2 r = some (hostsFinal ((fs r).getD []) hosts) ∧
        ((fs r).isSome = false → res.backupPath = []) ∧
        ((fs r).isSome = true → res.backupPath = r ++ str ".devhosts.bak-" ++ st ∧
          fs2 (r ++ str ".devhosts.bak-" ++ st) = fs r)) ∧
      (res.changed = false ↔ (fs r).getD [] = hostsFinal ((fs r).getD []) hosts) := by
  unfold hostsApply
  rw [hexp]
  dsimp only
  by_cases heq : (fs r).getD [] = hostsFinal ((fs r).getD []) hosts
  · rw [if_pos heq]
    exact ⟨fs, _, rfl, heq, fun _ _ _ => rfl, fun _ => ⟨rfl, rfl⟩,
      fun h => absurd h (by simp), iff_of_true rfl heq⟩
  · rw [if_neg heq]
    have hbakne : r ++ str ".devhosts.bak-" ++ st ≠ r := by
      rw [(by decide : str ".devhosts.bak-" = '.' :: str "devhosts.bak-"), List.append_assoc]
      exact append_cons_ne_self r '.' _
    have htmpne : r ++ str ".devhosts.tmp-" ++ nn ≠ r := by
      rw [(by decide : str ".devhosts.tmp-" = '.' :: str "devhosts.tmp-"), List.append_assoc]
      exact append_cons_ne_self r '.' _
    refine ⟨_, _, rfl, ?_, ?_, ?_, ?_, ?_⟩
    · simp [writeFS]
    · intro q hq1 hq2
      have hq2tmp : q ≠ r ++ str ".devhosts.tmp-" ++ nn := by
        rw [List.append_assoc]
        exact hq2 _
      have hq2bak : q ≠ r ++ str ".devhosts.bak-" ++ st := by
        rw [List.append_assoc]
        exact hq2 _
      by_cases hex : (fs r).isSome = true
      · simp only [hex, if_true, writeFS, removeFS]
        rw [if_neg hq1, if_neg hq2tmp, if_neg hq2tmp, if_neg hq2bak]
      · simp only [hex, Bool.false_eq_true, if_false, writeFS, removeFS]
        rw [if_neg hq1, if_neg hq2tmp, if_neg hq2tmp]
    · intro h
      exact absurd h (by simp)
    · intro _
      refine ⟨rfl, by simp [writeFS], ?_, ?_⟩
      · intro hex
        simp [hex]
      · intro hex
        obtain ⟨v, hv⟩ := Option.isSome_iff_exists.1 hex
        refine ⟨by simp [hex], ?_⟩
        simp only [hex, if_true, writeFS, removeFS]
        rw [if_neg hbakne, if_neg (bak_ne_tmp r st nn), if_neg (bak_ne_tmp r st nn)]
        simp [hv]
    · exact iff_of_false (by simp) heq

/-- `EnsureBaseReady` depends on the filesystem only through the base file's
bytes. -/
theorem ensureBaseReady_congr (home : Option Str) (fs fsb : FS) (b i : Str)
    (hosts : List Host) (br : Str) (hexp : expandUser b = some br)
    (heq : fsb br = fs br)
    (h : ensureBaseReady home fs b i hosts = none) :
    ensureBaseReady home fsb b i hosts = none := by
  unfold ensureBaseReady at h ⊢
  rw [hexp] at h ⊢
  dsimp only at h ⊢
  rw [heq]
  exact h

/-- Master lemma: the complete observable behaviour of `applyState` when
validation passes, both file writes go through, and the reload fails:
the reload diagnostics are surfaced, the include is restored before the
hosts file, the include file ends exactly as it started, and the hosts file
is restored from its backup when it existed — but merely stripped (left as
an existing, possibly empty file) when it did not. -/
theorem applyState_reloadFail_spec (env : Env) (snap : Snapshot) (incR hosR : Str)
    (hexpInc : expandUser snap.includeCaddyfile = some incR)
    (hexpHos : expandUser env.hostsPath = some hosR)
    (hIncNe : incR ≠ []) (hHosNe : hosR ≠ [])
    (hsep1 : incR.isPrefixOf hosR = false)
    (hsep2 : hosR.isPrefixOf incR = false)
    (hbase : ensureBaseReady env.home env.fs snap.baseCaddyfile snap.includeCaddyfile
      snap.hosts = none)
    (hreload : env.reloadOk = false)
    (hnl : ∀ nm ∈ extractHostnames snap.hosts, '\n' ∉ nm) :
    (applyState env snap).2.2 = .err (.reloadFailed
      (if trimSpace env.reloadStderr = [] then trimSpace env.reloadStdout
        else trimSpace env.reloadStderr)) ∧
    (applyState env snap).2.1 =
      [Event.updatedInclude, Event.appliedHosts, Event.restoredInclude,
        Event.restoredHosts] ∧
    (applyState env snap).1 incR = env.fs incR ∧
    (applyState env snap).1 hosR = (match env.fs hosR with
      | some orig => some orig
      | none =>
        if buildBlock (extractHostnames snap.hosts) = [] then none else some []) := by
  obtain ⟨fs1, incRes, hU, hU_r, hU_frame, hU_chg, hRest_r, hRest_q⟩ :=
    updateInclude_spec env.fs snap.includeCaddyfile (generateInclude snap.hosts)
      env.includeNano incR hexpInc hIncNe
  obtain ⟨fs2, hres, hH, hH_getD, hH_frame, hH_noop, hH_chg, hH_iff⟩ :=
    hostsApply_spec fs1 env.hostsPath snap.hosts env.hostsStamp env.hostsNano hosR
      hexpHos hHosNe
  have hHosNeInc : hosR ≠ incR := ne_of_not_isPre incR hosR hsep1
  have hIncNeHos : incR ≠ hosR := ne_of_not_isPre hosR incR hsep2
  have hHosNotIncTmp : hosR ≠ incR ++ str ".devhosts.tmp-" ++ env.includeNano := by
    rw [List.append_assoc]
    exact fun h => ne_append_of_not_isPre incR hosR hsep1 _ h.symm
  have hfs1Hos : fs1 hosR = env.fs hosR := hU_frame hosR hHosNeInc hHosNotIncTmp
  have happ : applyState env snap =
      ((hostsRestore (restoreInclude fs2 incRes) hres env.restoreStamp
          env.restoreNano).getD (restoreInclude fs2 incRes),
        [Event.updatedInclude, Event.appliedHosts, Event.restoredInclude,
          Event.restoredHosts],
        .err (.reloadFailed (if trimSpace env.reloadStderr = [] then
          trimSpace env.reloadStdout else trimSpace env.reloadStderr))) := by
    simp only [applyState, hbase, hU, hH, hreload, Bool.false_eq_true, if_false]
  have hg_inc : (restoreInclude fs2 incRes) incR = env.fs incR := hRest_r fs2
  have hg_hos : (restoreInclude fs2 incRes) hosR = fs2 hosR := hRest_q fs2 hosR hHosNeInc
  cases hchg0 : hres.changed with
  | false =>
    obtain ⟨hres_eq, hfs2_eq⟩ := hH_noop hchg0
    have hrest : hostsRestore (restoreInclude fs2 incRes) hres env.restoreStamp
        env.restoreNano = some (restoreInclude fs2 incRes) := by
      rw [hres_eq]
      rfl
    rw [happ]
    refine ⟨rfl, rfl, ?_, ?_⟩
    · simp only [hrest, Option.getD_some]
      exact hg_inc
    · simp only [hrest, Option.getD_some]
      rw [hg_hos, hfs2_eq, hfs1Hos]
      have hnoopEq : (fs1 hosR).getD [] = hostsFinal ((fs1 hosR).getD []) snap.hosts :=
        hH_iff.1 hchg0
      cases hfs : env.fs hosR with
      | some orig => rfl
      | none =>
        rw [hfs1Hos, hfs] at hnoopEq
        simp only [Option.getD_none] at hnoopEq
        rw [hostsFinal_nil] at hnoopEq
        simp [← hnoopEq]
  | true =>
    obtain ⟨hpath, hfs2r, hbak_none, hbak_some⟩ := hH_chg hchg0
    cases hfs : fs1 hosR with
    | some v =>
      have hex : (fs1 hosR).isSome = true := by simp [hfs]
      obtain ⟨hbakP, hbakContent⟩ := hbak_some hex
      have hbpNeInc : hosR ++ str ".devhosts.bak-" ++ env.hostsStamp ≠ incR := by
        rw [List.append_assoc]
        exact ne_append_of_not_isPre hosR incR hsep2 _
      have hg_bp : (restoreInclude fs2 incRes)
          (hosR ++ str ".devhosts.bak-" ++ env.hostsStamp) =
          fs2 (hosR ++ str ".devhosts.bak-" ++ env.hostsStamp) :=
        hRest_q fs2 _ hbpNeInc
      have hbpNeNil : hosR ++ str ".devhosts.bak-" ++ env.hostsStamp ≠ [] :=
        List.append_ne_nil_of_left_ne_nil
          (List.append_ne_nil_of_left_ne_nil hHosNe _) _
      have hrest : hostsRestore (restoreInclude fs2 incRes) hres env.restoreStamp
          env.restoreNano = some (writeFS (restoreInclude fs2 incRes) hosR v) := by
        unfold hostsRestore
        rw [hpath, if_neg hHosNe, hbakP, if_neg hbpNeNil]
        rw [hg_bp, hbakContent, hfs]
      rw [happ]
      refine ⟨rfl, rfl, ?_, ?_⟩
      · simp only [hrest, Option.getD_some]
        simp only [writeFS, if_neg hIncNeHos]
        exact hg_inc
      · simp only [hrest, Option.getD_some, writeFS]
        rw [← hfs1Hos, hfs]
        simp
    | none =>
      have hex : (fs1 hosR).isSome = false := by simp [hfs]
      have hbakP : hres.backupPath = [] := hbak_none hex
      have hexpR : expandUser hosR = some hosR := expandUser_of_resolved _ _ hexpHos
      obtain ⟨fs5, res5, hA5, h5getD, h5frame, h5noop, h5chg, h5iff⟩ :=
        hostsApply_spec (restoreInclude fs2 incRes) hosR [] env.restoreStamp
          env.restoreNano hosR hexpR hHosNe
      have hBfact : hostsFinal ((fs1 hosR).getD []) snap.hosts =
          buildBlock (extractHostnames snap.hosts) := by
        rw [hfs]
        exact hostsFinal_nil snap.hosts
      have hBne : buildBlock (extractHostnames snap.hosts) ≠ [] := by
        intro hB
        have := hH_iff.2 (by rw [hBfact, hB, hfs]; rfl)
        rw [hchg0] at this
        exact absurd this (by simp)
      have hnames : extractHostnames snap.hosts ≠ [] := by
        intro hn
        exact hBne (by rw [hn]; rfl)
      have hg_hos2 : (restoreInclude fs2 incRes) hosR =
          some (buildBlock (extractHostnames snap.hosts)) := by
        rw [hg_hos, hfs2r, hBfact]
      have hstripB : stripManagedBlock (buildBlock (extractHostnames snap.hosts)) =
          ([], true) := by
        have := strip_tidy_block [] (extractHostnames snap.hosts) (by simp) (by simp)
          (Or.inl rfl) hnames (joinSp_no_nl _ hnl)
        simpa [tidyStr] using this
      have hfinB : hostsFinal (buildBlock (extractHostnames snap.hosts)) [] = [] := by
        rw [hostsFinal_eq_strip_append _ [] (Or.inl (by rw [hstripB]))]
        rw [hstripB]
        rfl
      have h5chg2 : res5.changed = true := by
        cases h5c : res5.changed with
        | true => rfl
        | false =>
          have := h5iff.1 h5c
          rw [hg_hos2] at this
          simp only [Option.getD_some] at this
          rw [hfinB] at this
          exact absurd this hBne
      obtain ⟨_, h5r, _, _⟩ := h5chg h5chg2
      have h5r2 : fs5 hosR = some [] := by
        rw [h5r, hg_hos2]
        simp only [Option.getD_some]
        exact congrArg some hfinB
      have hrest : hostsRestore (restoreInclude fs2 incRes) hres env.restoreStamp
          env.restoreNano = some fs5 := by
        unfold hostsRestore
        rw [hpath, if_neg hHosNe, hbakP, if_pos rfl, hA5]
        rfl
      rw [happ]
      refine ⟨rfl, rfl, ?_, ?_⟩
      · simp only [hrest, Option.getD_some]
        have hIncNotHosApp : ∀ s : Str, incR ≠ hosR ++ s :=
          fun s h => (ne_append_of_not_isPre hosR incR hsep2 s) h.symm
        rw [h5frame incR hIncNeHos hIncNotHosApp]
        exact hg_inc
      · simp only [hrest, Option.getD_some]
        rw [h5r2, ← hfs1Hos, hfs]
        simp [hBne]

/-- Master lemma: the observable behaviour of a fully successful apply. -/
theorem applyState_success_spec (env : Env) (snap : Snapshot) (incR hosR baseR : Str)
    (hexpInc : expandUser snap.includeCaddyfile = some incR)
    (hexpHos : expandUser env.hostsPath = some hosR)
    (hexpBase : expandUser snap.baseCaddyfile = some baseR)
    (hIncNe : incR ≠ []) (hHosNe : hosR ≠ [])
    (hsep1 : incR.isPrefixOf hosR = false)
    (hsep2 : hosR.isPrefixOf incR = false)
    (hsep3 : incR.isPrefixOf baseR = false)
    (hsep4 : hosR.isPrefixOf baseR = false)
    (hbase : ensureBaseReady env.home env.fs snap.baseCaddyfile snap.includeCaddyfile
      snap.hosts = none)
    (hreload : env.reloadOk = true) :
    ∃ incRes hres,
      applyState env snap = ((applyState env snap).1,
        [Event.updatedInclude, Event.appliedHosts, Event.reloaded],
        .ok ⟨incRes, hres⟩) ∧
      (applyState env snap).1 incR = some (generateInclude snap.hosts) ∧
      ((applyState env snap).1 hosR).getD [] =
        hostsFinal ((env.fs hosR).getD []) snap.hosts ∧
      (applyState env snap).1 baseR = env.fs baseR := by
  obtain ⟨fs1, incRes, hU, hU_r, hU_frame, hU_chg, hRest_r, hRest_q⟩ :=
    updateInclude_spec env.fs snap.includeCaddyfile (generateInclude snap.hosts)
      env.includeNano incR hexpInc hIncNe
  obtain ⟨fs2, hres, hH, hH_getD, hH_frame, hH_noop, hH_chg, hH_iff⟩ :=
    hostsApply_spec fs1 env.hostsPath snap.hosts env.hostsStamp env.hostsNano hosR
      hexpHos hHosNe
  have hHosNeInc : hosR ≠ incR := ne_of_not_isPre incR hosR hsep1
  have hIncNeHos : incR ≠ hosR := ne_of_not_isPre hosR incR hsep2
  have hBaseNeInc : baseR ≠ incR := ne_of_not_isPre incR baseR hsep3
  have hBaseNeHos : baseR ≠ hosR := ne_of_not_isPre hosR baseR hsep4
  have hHosNotIncTmp : hosR ≠ incR ++ str ".devhosts.tmp-" ++ env.includeNano := by
    rw [List.append_assoc]
    exact fun h => ne_append_of_not_isPre incR hosR hsep1 _ h.symm
  have hBaseNotIncTmp : baseR ≠ incR ++ str ".devhosts.tmp-" ++ env.includeNano := by
    rw [List.append_assoc]
    exact fun h => ne_append_of_not_isPre incR baseR hsep3 _ h.symm
  have hIncNotHosApp : ∀ s : Str, incR ≠ hosR ++ s :=
    fun s h => (ne_append_of_not_isPre hosR incR hsep2 s) h.symm
  have hBaseNotHosApp : ∀ s : Str, baseR ≠ hosR ++ s :=
    fun s h => (ne_append_of_not_isPre hosR baseR hsep4 s) h.symm
  have hfs1Hos : fs1 hosR = env.fs hosR := hU_frame hosR hHosNeInc hHosNotIncTmp
  have happ : applyState env snap = (fs2,
      [Event.updatedInclude, Event.appliedHosts, Event.reloaded],
      .ok ⟨incRes, hres⟩) := by
    simp only [applyState, hbase, hU, hH, hreload, if_true]
  refine ⟨incRes, hres, ?_, ?_, ?_, ?_⟩
  · rw [happ]
  · rw [happ]
    dsimp only
    rw [hH_frame incR hIncNeHos hIncNotHosApp]
    exact hU_r
  · rw [happ]
    dsimp only
    rw [hH_getD, hfs1Hos]
  · rw [happ]
    dsimp only
    rw [hH_frame baseR hBaseNeHos hBaseNotHosApp]
    exact hU_frame baseR hBaseNeInc hBaseNotIncTmp

/-- `splitNl` of a rendered block: begin marker, one mapping line, end
marker, and the final empty piece from the trailing newline. -/
theorem splitNl_buildBlock (names : List Str) (hne : names ≠ [])
    (hjnl : '\n' ∉ joinSp names) :
    splitNl (buildBlock names) =
      [blockStart, str "127.0.0.1    " ++ joinSp names, blockEnd, []] := by
  have hmnl : '\n' ∉ str "127.0.0.1    " ++ joinSp names := by
    intro hm
    rcases List.mem_append.1 hm with h1 | h1
    · exact absurd h1 (by decide)
    · exact hjnl h1
  have hbb : buildBlock names =
      blockStart ++ '\n' :: ((str "127.0.0.1    " ++ joinSp names) ++
        '\n' :: (blockEnd ++ '\n' :: [])) := by
    simp only [buildBlock, if_neg hne]
    rw [(by decide : str "\n127.0.0.1    " = '\n' :: str "127.0.0.1    "),
      (by decide : str "\n" = ['\n'])]
    simp
  rw [hbb, splitNl_append_nl _ _ nl_not_mem_blockStart,
    splitNl_append_nl _ _ hmnl, splitNl_append_nl _ _ nl_not_mem_blockEnd]
  rfl

/-! ## The claims -/

/-! ### C7: the renderer scenario -/

/-- C7: `GenerateInclude` on
`[{user, http://localhost:8000, TLS on}, {staff, http://127.0.0.1:9000, TLS off}]`
renders exactly two blocks separated by one blank line, the `user` block
containing `tls internal` and the forwarding directive to
`http://localhost:8000`, with exactly one trailing newline (it ends in a
newline but not in a blank line); and the empty host list renders to the
empty string. -/
theorem C7_generateInclude_scenario :
    generateInclude [⟨str "user", str "http://localhost:8000", true⟩,
        ⟨str "staff", str "http://127.0.0.1:9000", false⟩] =
      str "user \x7b\n  tls internal\n\n  reverse_proxy http://localhost:8000\n\x7d" ++
        str "\n\n" ++
        str "staff \x7b\n  reverse_proxy http://127.0.0.1:9000\n\x7d" ++ str "\n" ∧
    containsSub (str "tls internal")
      (str "user \x7b\n  tls internal\n\n  reverse_proxy http://localhost:8000\n\x7d") =
        true ∧
    containsSub (str "reverse_proxy http://localhost:8000")
      (str "user \x7b\n  tls internal\n\n  reverse_proxy http://localhost:8000\n\x7d") =
        true ∧
    endsWithNl (generateInclude [⟨str "user", str "http://localhost:8000", true⟩,
      ⟨str "staff", str "http://127.0.0.1:9000", false⟩]) = true ∧
    List.isSuffixOf (str "\n\n")
      (generateInclude [⟨str "user", str "http://localhost:8000", true⟩,
        ⟨str "staff", str "http://127.0.0.1:9000", false⟩]) = false ∧
    generateInclude [] = [] := by decide

/-! ### C5: idempotence of the fragment write -/

def fsEmptyC5 : FS := fun _ => none

/-- C5 counterexample: with no file at the path and empty content to write —
where the claim says the empty previous state already equals the content, so
`changed = false` and no storage is touched — `UpdateInclude` in fact
proceeds to write: it returns `changed = true` and creates the (empty)
file. -/
theorem C5_counterexample :
    fsEmptyC5 (str "/inc") = none ∧
    (updateInclude fsEmptyC5 (str "/inc") [] (str "1")).map
        (fun pr => (pr.2, pr.1 (str "/inc"))) =
      some ((⟨true, str "/inc", [], false⟩ : UpdateResult), some []) := by decide

/-- C5 amended: `UpdateInclude` is idempotent when the resource exists with
bytes equal to the content (`changed = false` and the filesystem is returned
untouched); a missing resource is not an error, but the write then always
proceeds with `changed = true`, even for empty content. -/
theorem C5_amended (fs : FS) (path content nano r : Str)
    (hexp : expandUser path = some r) (hr : r ≠ []) :
    (fs r = some content →
      updateInclude fs path content nano = some (fs, ⟨false, r, content, true⟩)) ∧
    (fs r = none →
      (updateInclude fs path content nano).map (fun pr => (pr.2, pr.1 r)) =
        some ((⟨true, r, [], false⟩ : UpdateResult), some content)) := by
  constructor
  · intro h
    exact updateInclude_noop fs path content nano r hexp h
  · intro h
    unfold updateInclude
    rw [hexp]
    dsimp only
    rw [if_neg (by simp [h])]
    simp [h, writeFS]

def fsC5w : FS := fsOf [(str "/inc", str "old")]

theorem C5_witness :
    expandUser (str "/inc") = some (str "/inc") ∧
    fsC5w (str "/inc") = some (str "old") ∧
    updateInclude fsC5w (str "/inc") (str "old") (str "7") =
      some (fsC5w, ⟨false, str "/inc", str "old", true⟩) :=
  ⟨by decide, by decide,
    (C5_amended fsC5w (str "/inc") (str "old") (str "7") (str "/inc")
      (by decide) (by decide)).1 (by decide)⟩

/-! ### C3: corrupted managed region -/

def corruptedC3 : Str := str "# >>> devhosts BEGIN\n127.0.0.1    old\n"

def fsC3 : FS := fsOf [(str "/etc/hosts", corruptedC3)]

/-- C3: on a hosts file with an unterminated managed block,
`stripManagedBlock` itself aborts (returns the content unchanged, as its
comments promise), but `Manager.Apply` discards the abort flag, appends a
fresh managed block after the corrupted content, and rewrites the file with
`changed = true` — the file is *not* left byte-for-byte unchanged. -/
theorem C3_code_bug :
    stripManagedBlock corruptedC3 = (corruptedC3, false) ∧
    (hostsApply fsC3 (str "/etc/hosts")
        [⟨str "user", str "http://localhost:8000", false⟩] (str "s") (str "n")).map
      (fun pr => (pr.2.changed, pr.1 (str "/etc/hosts"))) =
      some (true, some (corruptedC3 ++ buildBlock [str "user"])) ∧
    corruptedC3 ++ buildBlock [str "user"] ≠ corruptedC3 := by decide

/-! ### C4: unmatched end marker -/

def contentC4 : Str := str "# <<< devhosts END\n"

def fsC4 : FS := fsOf [(str "/etc/hosts", contentC4)]

/-- C4 counterexample: a hosts file consisting of an unmatched end marker is
*not* left completely unmodified by an apply with a non-empty host list —
the freshly rendered block is appended and the file is rewritten
(`changed = true`). -/
theorem C4_counterexample :
    blockEnd ∈ splitNl contentC4 ∧
    blockStart ∉ splitNl contentC4 ∧
    (hostsApply fsC4 (str "/etc/hosts")
        [⟨str "user", str "http://localhost:8000", false⟩] (str "s") (str "n")).map
      (fun pr => (pr.2.changed, pr.1 (str "/etc/hosts"))) =
      some (true, some (contentC4 ++ buildBlock [str "user"])) ∧
    contentC4 ++ buildBlock [str "user"] ≠ contentC4 := by decide

/-- C4 amended: on a hosts file containing an end marker but no begin
marker, the strip keeps the end-marker line (it appears among the lines of
the stripped output, which the apply preserves as a prefix of the new file
content); the apply does not delete it, but it does append the rendered
block at the end, so the whole file is not in general unmodified. -/
theorem C4_amended (fs : FS) (p r content : Str) (hosts : List Host) (st nn : Str)
    (hexp : expandUser p = some r) (hr : r ≠ [])
    (hcontent : fs r = some content)
    (hnostart : blockStart ∉ splitNl content)
    (hend : blockEnd ∈ splitNl content) :
    (stripManagedBlock content).2 = false ∧
    blockEnd ∈ splitNl ((stripManagedBlock content).1) ∧
    hostsFinal content hosts =
      (stripManagedBlock content).1 ++ buildBlock (extractHostnames hosts) ∧
    (hostsApply fs p hosts st nn).map (fun pr => pr.1 r) =
      some (some ((stripManagedBlock content).1 ++
        buildBlock (extractHostnames hosts))) := by
  have hloop : stripLoop (splitNl content) false false [] =
      some (splitNl content, false) := by
    have := stripLoop_no_start (splitNl content) false []
      (fun l hl he => hnostart (he ▸ hl))
    simpa using this
  obtain ⟨hSMB, hbs, hnlp, hlast⟩ := strip_success_spec content _ _ hloop
  have hmem : blockEnd ∈ dropTrailingEmpties (splitNl content) :=
    mem_dropTrailingEmpties (by decide) hend
  have hne : dropTrailingEmpties (splitNl content) ≠ [] := List.ne_nil_of_mem hmem
  have hstr1 : (stripManagedBlock content).1 =
      joinNl (dropTrailingEmpties (splitNl content)) ++ ['\n'] := by
    rw [hSMB]
    simp [tidyStr, hne]
  have hends : (stripManagedBlock content).1 = [] ∨
      endsWithNl (stripManagedBlock content).1 = true := by
    rw [hSMB]
    exact endsWithNl_tidyStr _
  have hfinal := hostsFinal_eq_strip_append content hosts hends
  refine ⟨by rw [hSMB], ?_, hfinal, ?_⟩
  · rw [hstr1]
    have hshape : joinNl (dropTrailingEmpties (splitNl content)) ++ ['\n'] =
        joinNl (dropTrailingEmpties (splitNl content)) ++ '\n' :: [] := rfl
    rw [hshape, splitNl_joinNl_append _ _ hne hnlp]
    exact List.mem_append_left _ hmem
  · obtain ⟨fs2, res, hH, hH_getD, hH_frame, hH_noop, hH_chg, hH_iff⟩ :=
      hostsApply_spec fs p hosts st nn r hexp hr
    rw [hH]
    simp only [Option.map_some']
    cases hc : res.changed with
    | false =>
      obtain ⟨_, hfs2⟩ := hH_noop hc
      have heq := hH_iff.1 hc
      rw [hcontent] at heq
      simp only [Option.getD_some] at heq
      rw [hfs2, hcontent, ← hfinal, ← heq]
    | true =>
      obtain ⟨_, hfs2r, _, _⟩ := hH_chg hc
      rw [hfs2r, hcontent]
      simp only [Option.getD_some]
      rw [hfinal]

def contentC4w : Str := str "keep\n# <<< devhosts END\n"

def fsC4w : FS := fsOf [(str "/etc/hosts", contentC4w)]

def hostsC4w : List Host := [⟨str "user", str "http://localhost:8000", false⟩]

theorem C4_witness :
    expandUser (str "/etc/hosts") = some (str "/etc/hosts") ∧
    fsC4w (str "/etc/hosts") = some contentC4w ∧
    blockStart ∉ splitNl contentC4w ∧
    blockEnd ∈ splitNl contentC4w ∧
    ((stripManagedBlock contentC4w).2 = false ∧
      blockEnd ∈ splitNl ((stripManagedBlock contentC4w).1) ∧
      hostsFinal contentC4w hostsC4w =
        (stripManagedBlock contentC4w).1 ++ buildBlock (extractHostnames hostsC4w) ∧
      (hostsApply fsC4w (str "/etc/hosts") hostsC4w (str "1") (str "2")).map
          (fun pr => pr.1 (str "/etc/hosts")) =
        some (some ((stripManagedBlock contentC4w).1 ++
          buildBlock (extractHostnames hostsC4w)))) :=
  ⟨by decide, by decide, by decide, by decide,
    C4_amended fsC4w (str "/etc/hosts") (str "/etc/hosts") contentC4w hostsC4w
      (str "1") (str "2") (by decide) (by decide) (by decide) (by decide) (by decide)⟩

/-! ### C6: conflict detection blocks the apply before any write -/

/-- C6: when the parent configuration independently defines a managed
hostname (so `detectConflicts` is non-empty), `EnsureBaseReady` fails, and
`applyState` returns immediately with the validation error: the filesystem
it returns is exactly the input filesystem and no step events were
recorded — no file is written. -/
theorem C6_conflict_blocks_apply (env : Env) (snap : Snapshot) (baseR content : Str)
    (hexp : expandUser snap.baseCaddyfile = some baseR)
    (hread : env.fs baseR = some content)
    (hconf : detectConflicts content snap.hosts ≠ []) :
    (ensureBaseReady env.home env.fs snap.baseCaddyfile snap.includeCaddyfile
      snap.hosts).isSome = true ∧
    applyState env snap = (env.fs, [], .err (.base
      ((ensureBaseReady env.home env.fs snap.baseCaddyfile snap.includeCaddyfile
        snap.hosts).getD .readFailed))) := by
  have hsome : ∃ e, ensureBaseReady env.home env.fs snap.baseCaddyfile
      snap.includeCaddyfile snap.hosts = some e := by
    unfold ensureBaseReady
    rw [hexp]
    dsimp only
    rw [hread]
    dsimp only
    by_cases h1 : ensureImportPresent env.home content snap.includeCaddyfile = false
    · rw [if_pos h1]
      exact ⟨_, rfl⟩
    · rw [if_neg h1]
      by_cases h2 : usesTildeImport env.home content snap.includeCaddyfile = true
      · rw [if_pos h2]
        exact ⟨_, rfl⟩
      · rw [if_neg h2, if_pos hconf]
        exact ⟨_, rfl⟩
  obtain ⟨e, he⟩ := hsome
  have happ : applyState env snap = (env.fs, [], .err (.base e)) := by
    simp only [applyState, he]
  refine ⟨by simp [he], ?_⟩
  rw [happ, he]
  rfl

def fsC6w : FS := fsOf [(str "/base", str "import /inc\nadmin \x7b\n\x7d\n")]

def envC6w : Env :=
  ⟨none, fsC6w, str "/etc/hosts", str "1", str "2", str "3", str "4", str "5",
    true, [], []⟩

def snapC6w : Snapshot :=
  ⟨[⟨str "admin", str "http://localhost:9000", false⟩], str "/base", str "/inc"⟩

theorem C6_witness :
    envC6w.fs (str "/base") = some (str "import /inc\nadmin \x7b\n\x7d\n") ∧
    detectConflicts (str "import /inc\nadmin \x7b\n\x7d\n") snapC6w.hosts ≠ [] ∧
    ((ensureBaseReady envC6w.home envC6w.fs snapC6w.baseCaddyfile
        snapC6w.includeCaddyfile snapC6w.hosts).isSome = true ∧
      applyState envC6w snapC6w = (envC6w.fs, [], .err (.base
        ((ensureBaseReady envC6w.home envC6w.fs snapC6w.baseCaddyfile
          snapC6w.includeCaddyfile snapC6w.hosts).getD .readFailed)))) :=
  ⟨by decide, by decide,
    C6_conflict_blocks_apply envC6w snapC6w (str "/base")
      (str "import /inc\nadmin \x7b\n\x7d\n") (by decide) (by decide) (by decide)⟩

/-! ### C8: the rendered managed block -/

/-- C8 counterexample: a non-empty host list whose only entry has an empty
name produces *no* block at all (the rendered block is empty and contains no
marker lines), contradicting the claim that every non-empty host list yields
a block with one mapping line between the markers. -/
theorem C8_counterexample :
    ([(⟨[], str "http://localhost:8000", false⟩ : Host)] : List Host) ≠ [] ∧
    extractHostnames [(⟨[], str "http://localhost:8000", false⟩ : Host)] = [] ∧
    buildBlock (extractHostnames
      [(⟨[], str "http://localhost:8000", false⟩ : Host)]) = [] ∧
    blockStart ∉ splitNl (buildBlock (extractHostnames
      [(⟨[], str "http://localhost:8000", false⟩ : Host)])) := by decide

/-- C8 amended: for every host list containing at least one host with a
non-empty name (hostnames being single-line tokens), the rendered block is
exactly the begin marker, one mapping line `127.0.0.1` followed by the
non-empty names space-separated in sorted order, and the end marker; hosts
with empty names are dropped; the empty host list yields no block. -/
theorem C8_amended (hosts : List Host) (h0 : Host) (hmem : h0 ∈ hosts)
    (hname : h0.name ≠ [])
    (hnl : ∀ nm ∈ extractHostnames hosts, '\n' ∉ nm) :
    extractHostnames hosts ≠ [] ∧
    List.Sorted (fun a b => strLe a b = true) (extractHostnames hosts) ∧
    (extractHostnames hosts).Perm
      ((hosts.filter (fun h => h.name ≠ [])).map Host.name) ∧
    buildBlock (extractHostnames hosts) =
      blockStart ++ str "\n" ++
        (str "127.0.0.1    " ++ joinSp (extractHostnames hosts)) ++
        str "\n" ++ blockEnd ++ str "\n" ∧
    splitNl (buildBlock (extractHostnames hosts)) =
      [blockStart, str "127.0.0.1    " ++ joinSp (extractHostnames hosts),
        blockEnd, []] ∧
    buildBlock (extractHostnames ([] : List Host)) = [] := by
  have hmem2 : h0.name ∈ extractHostnames hosts := by
    unfold extractHostnames sortStrings
    rw [List.mem_insertionSort]
    exact List.mem_map_of_mem Host.name (List.mem_filter.2 ⟨hmem, by simpa using hname⟩)
  have hne : extractHostnames hosts ≠ [] := List.ne_nil_of_mem hmem2
  refine ⟨hne, ?_, ?_, ?_, ?_, rfl⟩
  · unfold extractHostnames sortStrings
    exact List.sorted_insertionSort _ _
  · unfold extractHostnames sortStrings
    exact List.perm_insertionSort _ _
  · simp only [buildBlock, if_neg hne]
    rw [(by decide : str "\n127.0.0.1    " = str "\n" ++ str "127.0.0.1    ")]
    simp [List.append_assoc]
  · exact splitNl_buildBlock _ hne (joinSp_no_nl _ hnl)

def hostsC8w : List Host :=
  [⟨str "user", str "http://localhost:8000", true⟩,
    ⟨str "staff", str "http://127.0.0.1:9000", false⟩]

theorem C8_witness :
    (⟨str "user", str "http://localhost:8000", true⟩ : Host) ∈ hostsC8w ∧
    (str "user" : Str) ≠ [] ∧
    (∀ nm ∈ extractHostnames hostsC8w, '\n' ∉ nm) ∧
    (extractHostnames hostsC8w ≠ [] ∧
      List.Sorted (fun a b => strLe a b = true) (extractHostnames hostsC8w) ∧
      (extractHostnames hostsC8w).Perm
        ((hostsC8w.filter (fun h => h.name ≠ [])).map Host.name) ∧
      buildBlock (extractHostnames hostsC8w) =
        blockStart ++ str "\n" ++
          (str "127.0.0.1    " ++ joinSp (extractHostnames hostsC8w)) ++
          str "\n" ++ blockEnd ++ str "\n" ∧
      splitNl (buildBlock (extractHostnames hostsC8w)) =
        [blockStart, str "127.0.0.1    " ++ joinSp (extractHostnames hostsC8w),
          blockEnd, []] ∧
      buildBlock (extractHostnames ([] : List Host)) = []) :=
  ⟨by decide, by decide, by decide,
    C8_amended hostsC8w ⟨str "user", str "http://localhost:8000", true⟩
      (by decide) (by decide) (by decide)⟩

/-! ### C10: restore without a backup -/

/-- C10: when `Restore` is handed a result with a non-empty path but an
empty backup path and the file currently exists, it does not delete the
file: it re-runs `Apply` with the empty host list, leaving the file present
with the empty-list content (the stripped content when the scan succeeds,
possibly the empty file) rather than restoring prior non-existence. -/
theorem C10_restore_strips (fs : FS) (res : ApplyResult) (stamp nano r content : Str)
    (hpath : res.path ≠ []) (hbak : res.backupPath = [])
    (hexp : expandUser res.path = some r) (hr : r ≠ [])
    (hcur : fs r = some content) :
    (hostsRestore fs res stamp nano).map (fun g => g r) =
      some (some (hostsFinal content [])) ∧
    (stripOk content = true →
      hostsFinal content [] = (stripManagedBlock content).1) := by
  constructor
  · unfold hostsRestore
    rw [if_neg hpath, hbak, if_pos rfl]
    obtain ⟨fs2, res2, hA, hA_getD, hA_frame, hA_noop, hA_chg, hA_iff⟩ :=
      hostsApply_spec fs res.path [] stamp nano r hexp hr
    rw [hA]
    simp only [Option.map_some']
    cases hc : res2.changed with
    | false =>
      obtain ⟨_, hfs2⟩ := hA_noop hc
      have heq := hA_iff.1 hc
      rw [hcur] at heq
      simp only [Option.getD_some] at heq
      rw [hfs2, hcur, ← heq]
    | true =>
      obtain ⟨_, hfs2r, _, _⟩ := hA_chg hc
      rw [hfs2r, hcur]
      simp only [Option.getD_some]
  · intro hOk
    obtain ⟨out, hw, _, _, _⟩ := stripped_tidy_form content hOk
    rw [hostsFinal_eq_strip_append content [] (by rw [hw]; exact endsWithNl_tidyStr out)]
    simp [extractHostnames, sortStrings, buildBlock]

def contentC10w : Str :=
  str "127.0.0.1 localhost\n# >>> devhosts BEGIN\n127.0.0.1    user\n# <<< devhosts END\n"

def fsC10w : FS := fsOf [(str "/etc/hosts", contentC10w)]

def resC10w : ApplyResult := ⟨true, [], str "/etc/hosts"⟩

theorem C10_witness :
    resC10w.path ≠ [] ∧
    resC10w.backupPath = [] ∧
    fsC10w (str "/etc/hosts") = some contentC10w ∧
    ((hostsRestore fsC10w resC10w (str "8") (str "9")).map
        (fun g => g (str "/etc/hosts")) =
      some (some (hostsFinal contentC10w [])) ∧
    (stripOk contentC10w = true →
      hostsFinal contentC10w [] = (stripManagedBlock contentC10w).1)) :=
  ⟨by decide, rfl, by decide,
    C10_restore_strips fsC10w resC10w (str "8") (str "9") (str "/etc/hosts")
      contentC10w (by decide) rfl (by decide) (by decide) (by decide)⟩

/-! ### C1: atomicity of the rollback after a reload failure -/

def fsC1 : FS := fsOf [(str "/base", str "import /inc\n")]

def envC1 : Env :=
  ⟨none, fsC1, str "/etc/hosts", str "1", str "2", str "3", str "4", str "5",
    false, [], str "boom"⟩

def snapC1 : Snapshot :=
  ⟨[⟨str "user", str "http://localhost:8000", false⟩], str "/base", str "/inc"⟩

/-- C1 counterexample: an apply in which validation and both writes succeed
and the reload fails, run against a hosts file that did not exist
beforehand.  After the rollback the include fragment is absent again, but
the hosts file *exists* as an empty file — it is not "absent again" as the
claim states. -/
theorem C1_counterexample :
    envC1.fs (str "/etc/hosts") = none ∧
    (applyState envC1 snapC1).2.1 =
      [Event.updatedInclude, Event.appliedHosts, Event.restoredInclude,
        Event.restoredHosts] ∧
    (applyState envC1 snapC1).2.2 = .err (.reloadFailed (str "boom")) ∧
    (applyState envC1 snapC1).1 (str "/inc") = none ∧
    (applyState envC1 snapC1).1 (str "/etc/hosts") = some [] := by decide

/-- C1 amended: when validation passes, both writes go through, and the
reload fails, the rollback leaves the include fragment file byte-identical
to its pre-apply state (absent again if it did not exist); the hosts file is
restored byte-identically from its backup when it existed before the apply,
but a hosts file that did not exist before ends as a present file with the
managed block stripped (the empty file when the apply created it), not
absent. -/
theorem C1_amended (env : Env) (snap : Snapshot) (incR hosR : Str)
    (hexpInc : expandUser snap.includeCaddyfile = some incR)
    (hexpHos : expandUser env.hostsPath = some hosR)
    (hIncNe : incR ≠ []) (hHosNe : hosR ≠ [])
    (hsep1 : incR.isPrefixOf hosR = false)
    (hsep2 : hosR.isPrefixOf incR = false)
    (hbase : ensureBaseReady env.home env.fs snap.baseCaddyfile snap.includeCaddyfile
      snap.hosts = none)
    (hreload : env.reloadOk = false)
    (hnl : ∀ nm ∈ extractHostnames snap.hosts, '\n' ∉ nm) :
    (applyState env snap).2.2 = .err (.reloadFailed
      (if trimSpace env.reloadStderr = [] then trimSpace env.reloadStdout
        else trimSpace env.reloadStderr)) ∧
    (applyState env snap).1 incR = env.fs incR ∧
    (applyState env snap).1 hosR = (match env.fs hosR with
      | some orig => some orig
      | none =>
        if buildBlock (extractHostnames snap.hosts) = [] then none else some []) := by
  obtain ⟨h1, _, h3, h4⟩ := applyState_reloadFail_spec env snap incR hosR hexpInc
    hexpHos hIncNe hHosNe hsep1 hsep2 hbase hreload hnl
  exact ⟨h1, h3, h4⟩

def fsC1w : FS := fsOf [(str "/base", str "import /inc\n"),
  (str "/inc", str "old\n"), (str "/etc/hosts", str "127.0.0.1 localhost\n")]

def envC1w : Env :=
  ⟨none, fsC1w, str "/etc/hosts", str "1", str "2", str "3", str "4", str "5",
    false, [], str "bad"⟩

def snapC1w : Snapshot :=
  ⟨[⟨str "user", str "http://localhost:8000", true⟩], str "/base", str "/inc"⟩

theorem C1_witness :
    ensureBaseReady envC1w.home envC1w.fs snapC1w.baseCaddyfile
      snapC1w.includeCaddyfile snapC1w.hosts = none ∧
    envC1w.reloadOk = false ∧
    (applyState envC1w snapC1w).2.2 = .err (.reloadFailed (str "bad")) ∧
    (applyState envC1w snapC1w).1 (str "/inc") = envC1w.fs (str "/inc") ∧
    (applyState envC1w snapC1w).1 (str "/etc/hosts") =
      some (str "127.0.0.1 localhost\n") :=
  ⟨by decide, rfl,
    (C1_amended envC1w snapC1w (str "/inc") (str "/etc/hosts") (by decide) (by decide)
      (by decide) (by decide) (by decide) (by decide) (by decide) rfl
      (by decide)).1.trans (by decide),
    (C1_amended envC1w snapC1w (str "/inc") (str "/etc/hosts") (by decide) (by decide)
      (by decide) (by decide) (by decide) (by decide) (by decide) rfl
      (by decide)).2.1,
    (C1_amended envC1w snapC1w (str "/inc") (str "/etc/hosts") (by decide) (by decide)
      (by decide) (by decide) (by decide) (by decide) (by decide) rfl
      (by decide)).2.2.trans (by decide)⟩

/-! ### C2: rollback order after a reload failure -/

def fsC2 : FS := fsOf [(str "/base", str "import /inc\n"),
  (str "/etc/hosts", str "127.0.0.1 localhost\n")]

def envC2 : Env :=
  ⟨none, fsC2, str "/etc/hosts", str "1", str "2", str "3", str "4", str "5",
    false, [], str "oops"⟩

def snapC2 : Snapshot :=
  ⟨[⟨str "user", str "http://localhost:8000", false⟩], str "/base", str "/inc"⟩

/-- C2 counterexample: in a reload-failure rollback the orchestrator
restores the include fragment *first* and the hosts file *second* — the
include-restore step strictly precedes the hosts-restore step in the
recorded execution order, contradicting the claimed
most-recently-applied-first (hosts first) order. -/
theorem C2_counterexample :
    (applyState envC2 snapC2).2.2 = .err (.reloadFailed (str "oops")) ∧
    Event.restoredInclude ∈ (applyState envC2 snapC2).2.1 ∧
    Event.restoredHosts ∈ (applyState envC2 snapC2).2.1 ∧
    (applyState envC2 snapC2).2.1.indexOf Event.restoredInclude <
      (applyState envC2 snapC2).2.1.indexOf Event.restoredHosts := by decide

/-- C2 amended: when the reload fails after both writes succeeded, the
orchestrator rolls back in *application* order — the fragment write first,
the managed-block write second — and then surfaces the reload failure with
the captured diagnostics (trimmed stderr, falling back to stdout). -/
theorem C2_amended (env : Env) (snap : Snapshot) (incR hosR : Str)
    (hexpInc : expandUser snap.includeCaddyfile = some incR)
    (hexpHos : expandUser env.hostsPath = some hosR)
    (hIncNe : incR ≠ []) (hHosNe : hosR ≠ [])
    (hsep1 : incR.isPrefixOf hosR = false)
    (hsep2 : hosR.isPrefixOf incR = false)
    (hbase : ensureBaseReady env.home env.fs snap.baseCaddyfile snap.includeCaddyfile
      snap.hosts = none)
    (hreload : env.reloadOk = false)
    (hnl : ∀ nm ∈ extractHostnames snap.hosts, '\n' ∉ nm) :
    (applyState env snap).2.1 =
      [Event.updatedInclude, Event.appliedHosts, Event.restoredInclude,
        Event.restoredHosts] ∧
    (applyState env snap).2.2 = .err (.reloadFailed
      (if trimSpace env.reloadStderr = [] then trimSpace env.reloadStdout
        else trimSpace env.reloadStderr)) := by
  obtain ⟨h1, h2, _, _⟩ := applyState_reloadFail_spec env snap incR hosR hexpInc
    hexpHos hIncNe hHosNe hsep1 hsep2 hbase hreload hnl
  exact ⟨h2, h1⟩

def fsC2w : FS := fsOf [(str "/base", str "import /inc\n"),
  (str "/etc/hosts", str "127.0.0.1 localhost\n")]

def envC2w : Env :=
  ⟨none, fsC2w, str "/etc/hosts", str "1", str "2", str "3", str "4", str "5",
    false, str "stdout text", str "stderr text"⟩

def snapC2w : Snapshot :=
  ⟨[⟨str "user", str "http://localhost:8000", false⟩], str "/base", str "/inc"⟩

theorem C2_witness :
    ensureBaseReady envC2w.home envC2w.fs snapC2w.baseCaddyfile
      snapC2w.includeCaddyfile snapC2w.hosts = none ∧
    envC2w.reloadOk = false ∧
    (applyState envC2w snapC2w).2.1 =
      [Event.updatedInclude, Event.appliedHosts, Event.restoredInclude,
        Event.restoredHosts] ∧
    (applyState envC2w snapC2w).2.2 = .err (.reloadFailed (str "stderr text")) :=
  ⟨by decide, rfl,
    (C2_amended envC2w snapC2w (str "/inc") (str "/etc/hosts") (by decide) (by decide)
      (by decide) (by decide) (by decide) (by decide) (by decide) rfl
      (by decide)).1,
    (C2_amended envC2w snapC2w (str "/inc") (str "/etc/hosts") (by decide) (by decide)
      (by decide) (by decide) (by decide) (by decide) (by decide) rfl
      (by decide)).2.trans (by decide)⟩

/-! ### C9: idempotence of successful applies -/

def applyResOk : ApplyRes → Bool
  | .ok _ => true
  | .err _ => false

def applyResHostsChanged : ApplyRes → Bool
  | .ok o => o.hostsRes.changed
  | .err _ => false

def fsC9 : FS := fsOf [(str "/base", str "import /inc\n"),
  (str "/etc/hosts", str "# >>> devhosts BEGIN\n")]

def envC9 : Env :=
  ⟨none, fsC9, str "/etc/hosts", str "1", str "2", str "3", str "4", str "5",
    true, [], []⟩

def snapC9 : Snapshot :=
  ⟨[⟨str "user", str "http://localhost:8000", false⟩], str "/base", str "/inc"⟩

def envC9b : Env := { envC9 with fs := (applyState envC9 snapC9).1 }

/-- C9 counterexample: against a hosts file holding an unterminated managed
block, two successive applies of the same desired state both succeed, yet
the second apply reports `changed = true` for the hosts file and rewrites it
again (each apply appends another block). -/
theorem C9_counterexample :
    applyResOk (applyState envC9 snapC9).2.2 = true ∧
    applyResOk (applyState envC9b snapC9).2.2 = true ∧
    applyResHostsChanged (applyState envC9b snapC9).2.2 = true ∧
    (applyState envC9b snapC9).1 (str "/etc/hosts") ≠
      envC9b.fs (str "/etc/hosts") := by decide

/-- C9 amended: applying the same desired state twice in a row, with both
applies succeeding and no external modification in between, yields a second
apply with `changed = false` for both file resources and no writes (the
returned filesystem is exactly the input one) — provided the managed-region
scan of the original hosts file succeeds (no nested/unterminated block) and
the hostnames are single-line tokens. -/
theorem C9_amended (env env2 : Env) (snap : Snapshot) (incR hosR baseR : Str)
    (hexpInc : expandUser snap.includeCaddyfile = some incR)
    (hexpHos : expandUser env.hostsPath = some hosR)
    (hexpBase : expandUser snap.baseCaddyfile = some baseR)
    (hIncNe : incR ≠ []) (hHosNe : hosR ≠ [])
    (hsep1 : incR.isPrefixOf hosR = false)
    (hsep2 : hosR.isPrefixOf incR = false)
    (hsep3 : incR.isPrefixOf baseR = false)
    (hsep4 : hosR.isPrefixOf baseR = false)
    (hbase : ensureBaseReady env.home env.fs snap.baseCaddyfile snap.includeCaddyfile
      snap.hosts = none)
    (hreload : env.reloadOk = true)
    (hstrip : stripOk ((env.fs hosR).getD []) = true)
    (hnl : ∀ nm ∈ extractHostnames snap.hosts, '\n' ∉ nm)
    (h2fs : env2.fs = (applyState env snap).1)
    (h2home : env2.home = env.home)
    (h2hosts : env2.hostsPath = env.hostsPath)
    (h2reload : env2.reloadOk = true) :
    (∃ out1, (applyState env snap).2.2 = .ok out1) ∧
    applyState env2 snap = (env2.fs,
      [Event.updatedInclude, Event.appliedHosts, Event.reloaded],
      .ok ⟨⟨false, incR, generateInclude snap.hosts, true⟩, ⟨false, [], []⟩⟩) := by
  obtain ⟨incRes, hres, happ1, hinc1, hhos1, hbase1⟩ :=
    applyState_success_spec env snap incR hosR baseR hexpInc hexpHos hexpBase hIncNe
      hHosNe hsep1 hsep2 hsep3 hsep4 hbase hreload
  constructor
  · refine ⟨⟨incRes, hres⟩, ?_⟩
    rw [happ1]
  · have hbase2 : ensureBaseReady env2.home env2.fs snap.baseCaddyfile
        snap.includeCaddyfile snap.hosts = none := by
      rw [h2home]
      exact ensureBaseReady_congr env.home env.fs env2.fs snap.baseCaddyfile
        snap.includeCaddyfile snap.hosts baseR hexpBase (by rw [h2fs, hbase1]) hbase
    have hU2 : updateInclude env2.fs snap.includeCaddyfile
        (generateInclude snap.hosts) env2.includeNano =
        some (env2.fs, ⟨false, incR, generateInclude snap.hosts, true⟩) :=
      updateInclude_noop env2.fs snap.includeCaddyfile (generateInclude snap.hosts)
        env2.includeNano incR hexpInc (by rw [h2fs]; exact hinc1)
    have hH2 : hostsApply env2.fs env2.hostsPath snap.hosts env2.hostsStamp
        env2.hostsNano = some (env2.fs, ⟨false, [], []⟩) := by
      apply hostsApply_noop env2.fs env2.hostsPath snap.hosts env2.hostsStamp
        env2.hostsNano hosR
      · rw [h2hosts]
        exact hexpHos
      · rw [h2fs, hhos1]
        exact (hostsFinal_idem ((env.fs hosR).getD []) snap.hosts hstrip hnl).symm
    simp only [applyState, hbase2, hU2, hH2, h2reload, if_true]

def fsC9w : FS := fsOf [(str "/base", str "import /inc\n"),
  (str "/etc/hosts", str "127.0.0.1 localhost\n")]

def envC9w : Env :=
  ⟨none, fsC9w, str "/etc/hosts", str "1", str "2", str "3", str "4", str "5",
    true, [], []⟩

def snapC9w : Snapshot :=
  ⟨[⟨str "user", str "http://localhost:8000", true⟩], str "/base", str "/inc"⟩

def envC9w2 : Env := { envC9w with
  fs := (applyState envC9w snapC9w).1
  includeNano := str "6"
  hostsStamp := str "7"
  hostsNano := str "8" }

theorem C9_witness :
    stripOk ((envC9w.fs (str "/etc/hosts")).getD []) = true ∧
    envC9w2.fs = (applyState envC9w snapC9w).1 ∧
    ((∃ out1, (applyState envC9w snapC9w).2.2 = .ok out1) ∧
      applyState envC9w2 snapC9w = (envC9w2.fs,
        [Event.updatedInclude, Event.appliedHosts, Event.reloaded],
        .ok ⟨⟨false, str "/inc", generateInclude snapC9w.hosts, true⟩,
          ⟨false, [], []⟩⟩)) :=
  ⟨by decide, rfl,
    C9_amended envC9w envC9w2 snapC9w (str "/inc") (str "/etc/hosts") (str "/base")
      (by decide) (by decide) (by decide) (by decide) (by decide) (by decide)
      (by decide) (by decide) (by decide) (by decide) rfl (by decide) (by decide)
      rfl rfl rfl rfl⟩

end Devhosts
